import Mathlib

/-!
Verification development for the `esofile-reader` EnergyPlus `.eso` parser.

The Python/Cython sources are shallowly embedded:

* Python `dict`s (insertion-ordered, unique keys) become association lists
  `List (α × β)` with lookup `aget`, insert-or-replace `aset` and key
  deletion `adel`.
* Python strings become Lean `String`s; `split(",")`, `strip()`, `lower()`,
  the `in` substring test, `int(...)`, `float(...)` and `Decimal(...)` are
  re-implemented on `List Char`.  Numeric values are modelled as exact
  rationals (`Rat`); the missing sentinel `np.nan` is modelled as `none` in
  `Option Rat`.
* Exceptions become an error type `PErr`; uncaught Python exceptions
  (`KeyError`, `IndexError`, unbound locals) surface as the corresponding
  `PErr` constructor.
-/

set_option autoImplicit false
set_option maxRecDepth 8000

namespace EsoReader

universe u v w

instance {ε : Type u} {δ : Type v} [DecidableEq ε] [DecidableEq δ] :
    DecidableEq (Except ε δ) := fun a b =>
  match a, b with
  | .ok x, .ok y =>
    if h : x = y then isTrue (by rw [h]) else isFalse (by simp [h])
  | .error x, .error y =>
    if h : x = y then isTrue (by rw [h]) else isFalse (by simp [h])
  | .ok _, .error _ => isFalse (by simp)
  | .error _, .ok _ => isFalse (by simp)

/-! ## Association lists: the model of Python `dict` -/

variable {α : Type u} {β : Type v} {γ : Type w}

/-- Lookup of a key: `m[k]` returning `none` for a `KeyError`. -/
def aget [DecidableEq α] : List (α × β) → α → Option β
  | [], _ => none
  | p :: t, k => if p.1 = k then some p.2 else aget t k

/-- `m[k] = v`: replace the value in place if the key exists (Python dicts
keep the original position), otherwise append the new binding. -/
def aset [DecidableEq α] : List (α × β) → α → β → List (α × β)
  | [], k, v => [(k, v)]
  | p :: t, k, v => if p.1 = k then (k, v) :: t else p :: aset t k v

/-- `del m[k]` (total: deleting an absent key is a no-op, matching the
`contextlib.suppress(KeyError)` use sites). -/
def adel [DecidableEq α] (m : List (α × β)) (k : α) : List (α × β) :=
  m.filter (fun p => p.1 ≠ k)

/-- Map a function over the values of an association list. -/
def mapVals (f : α → β → γ) (m : List (α × β)) : List (α × γ) :=
  m.map (fun p => (p.1, f p.1 p.2))

/-! ## Python string primitives -/

/-- Characters removed by Python `str.strip()` (ASCII whitespace; the
sources only ever strip ASCII text). -/
def isPySpace (c : Char) : Bool :=
  c = ' ' || c = '\t' || c = '\n' || c = '\x0d' || c = '\x0b' || c = '\x0c'

/-- `str.strip()` on the character list. -/
def trimChars (cs : List Char) : List Char :=
  ((cs.dropWhile isPySpace).reverse.dropWhile isPySpace).reverse

/-- `str.strip()`. -/
def pyStrip (s : String) : String := String.mk (trimChars s.data)

/-- `sub in hay` on character lists. -/
def hasSubstr : List Char → List Char → Bool
  | [], needle => needle.isEmpty
  | c :: t, needle => needle.isPrefixOf (c :: t) || hasSubstr t needle

/-- Python substring containment `needle in hay`. -/
def pyContains (hay needle : String) : Bool := hasSubstr hay.data needle.data

/-- `str.lower()` (ASCII). -/
def lowerStr (s : String) : String := String.mk (s.data.map Char.toLower)

/-- `s.split(sep)` for a one-character separator, Python semantics
(`"".split(",") = [""]`, empty fields kept). -/
def splitChars (sep : Char) : List Char → List (List Char)
  | [] => [[]]
  | c :: t =>
    let r := splitChars sep t
    if c = sep then [] :: r
    else
      match r with
      | [] => [[c]]
      | f :: rest => (c :: f) :: rest

/-- `raw_line.split(",")`. -/
def pySplit (s : String) : List String := (splitChars ',' s.data).map String.mk

/-! ## Python number parsing, modelled over exact rationals -/

/-- Numeric value of a digit string. -/
def digitsVal (cs : List Char) : Nat :=
  cs.foldl (fun a c => a * 10 + (c.toNat - '0'.toNat)) 0

/-- A non-empty all-digit string, or `none`. -/
def digitsToNat? (cs : List Char) : Option Nat :=
  if cs ≠ [] ∧ cs.all Char.isDigit then some (digitsVal cs) else none

/-- Python `int(s)`: optional surrounding whitespace, optional sign,
non-empty digit run.  (Underscore digit grouping is not modelled; no input
in this development uses it.) -/
def pyInt (s : String) : Option Int :=
  match trimChars s.data with
  | '+' :: rest => (digitsToNat? rest).map Int.ofNat
  | '-' :: rest => (digitsToNat? rest).map (fun n => -(n : Int))
  | rest => (digitsToNat? rest).map Int.ofNat

/-- An exact decimal number `mant * 10 ^ exp`.  Python `float`/`Decimal`
values are modelled by the exact value of their literal; all operations
the parser performs on them (the zero test of the start-minute and the
half-up rounding of the end-minute) are implemented on this
representation with integer arithmetic only, so that every run of the
parser evaluates inside the kernel. -/
structure Dec where
  mant : Int
  exp : Int
deriving DecidableEq, Repr

/-- Scale by a signed power of ten. -/
def powTenZ (q : Rat) (e : Int) : Rat :=
  if 0 ≤ e then q * (10 : Rat) ^ e.toNat else q / (10 : Rat) ^ (-e).toNat

/-- The rational value of an exact decimal. -/
def Dec.toRat (d : Dec) : Rat := powTenZ (d.mant : Rat) d.exp

/-- Exponent suffix of a float/Decimal literal; empty input means
exponent `0`. -/
def parseExpPart : List Char → Option Int
  | [] => some 0
  | c :: rest =>
    if c = 'e' ∨ c = 'E' then
      match rest with
      | '+' :: ds => (digitsToNat? ds).map Int.ofNat
      | '-' :: ds => (digitsToNat? ds).map (fun n => -(n : Int))
      | ds => (digitsToNat? ds).map Int.ofNat
    else none

/-- Unsigned mantissa `digits [. digits]` / `. digits`; returns the
concatenated digits, the length of the fractional part and the
unconsumed suffix. -/
def parseMantissa (cs : List Char) : Option (Nat × Nat × List Char) :=
  let ip := cs.takeWhile Char.isDigit
  let r1 := cs.dropWhile Char.isDigit
  match r1 with
  | '.' :: r2 =>
    let fp := r2.takeWhile Char.isDigit
    let r3 := r2.dropWhile Char.isDigit
    if ip.isEmpty && fp.isEmpty then none
    else some (digitsVal (ip ++ fp), fp.length, r3)
  | _ => if ip.isEmpty then none else some (digitsVal ip, 0, r1)

/-- Shared decimal-literal grammar of Python `float(s)` and `Decimal(s)`,
with the literal's exact value.  (`inf`/`nan` literals and binary
floating-point rounding are outside the model: every literal the parser
meets denotes an exact decimal.) -/
def pyNum (s : String) : Option Dec :=
  let cs := trimChars s.data
  let signed : Int × List Char :=
    match cs with
    | '+' :: r => (1, r)
    | '-' :: r => (-1, r)
    | r => (1, r)
  (parseMantissa signed.2).bind fun mr =>
    (parseExpPart mr.2.2).map fun e => ⟨signed.1 * (mr.1 : Int), e - (mr.2.1 : Int)⟩

/-- Python `float(s)`, modelled exactly. -/
def pyFloat (s : String) : Option Dec := pyNum s

/-- Python `decimal.Decimal(s)` (exact by construction). -/
def pyDecimal (s : String) : Option Dec := pyNum s

/-- `Decimal.to_integral(rounding=ROUND_HALF_UP)` on the exact-decimal
representation: round to the nearest integer, ties away from zero. -/
def roundHalfUpDec (d : Dec) : Int :=
  if 0 ≤ d.exp then d.mant * (10 : Int) ^ d.exp.toNat
  else
    let dn : Nat := (10 : Nat) ^ (-d.exp).toNat
    let a : Nat := d.mant.natAbs
    let rounded : Nat := a / dn + (if dn ≤ 2 * (a % dn) then 1 else 0)
    if 0 ≤ d.mant then (rounded : Int) else -(rounded : Int)

/-- Round-half-up on the rationals (ties away from zero), the
specification-level rounding `roundHalfUpDec` implements. -/
def roundHalfUp (q : Rat) : Int :=
  if q < 0 then -(Int.floor (-q + 1 / 2)) else Int.floor (q + 1 / 2)

/-! ## The dictionary-line pattern

The header regex of `process_header_line`
(`esofile_reader.pyx`):

    ^(\d+),(\d+),(.*?)(?:,(.*?) ?\[| ?\[)(.*?)\] !(\w*(?: \w+)?).*$

is compiled by hand into a deterministic matcher.  Lazy groups are
realised as shortest-split-first loops that retry on downstream failure,
exactly reproducing the backtracking order of the Python engine; `.` does
not match a newline (no DOTALL), `$` matches at the end of the string or
just before one trailing newline. -/

/-- `\w` (ASCII inputs). -/
def isWordChar (c : Char) : Bool := c.isAlphanum || c = '_'

/-- `.` without DOTALL. -/
def isDotChar (c : Char) : Bool := c ≠ '\n'

/-- `.*$`: accepted iff no newline occurs before the final position. -/
def noInteriorNewline : List Char → Bool
  | [] => true
  | ['\n'] => true
  | c :: t => c ≠ '\n' && noInteriorNewline t

/-- `] !(\w*(?: \w+)?).*$` : literal tail, group 6, rest of line. -/
def matchTailPart (s : List Char) : Option String :=
  match s with
  | ']' :: ' ' :: '!' :: rest =>
    let w1 := rest.takeWhile isWordChar
    let r1 := rest.dropWhile isWordChar
    match r1 with
    | ' ' :: r2 =>
      let w2 := r2.takeWhile isWordChar
      let r3 := r2.dropWhile isWordChar
      if w2.isEmpty then
        if noInteriorNewline r1 then some (String.mk w1) else none
      else
        if noInteriorNewline r3 then some (String.mk (w1 ++ ' ' :: w2)) else none
    | _ => if noInteriorNewline r1 then some (String.mk w1) else none
  | _ => none

/-- `(.*?)\] !(\w*(?: \w+)?).*$` : lazy group 5 then the tail. -/
def matchG5Aux : List Char → List Char → Option (String × String)
  | acc, s =>
    match matchTailPart s with
    | some g6 => some (String.mk acc.reverse, g6)
    | none =>
      match s with
      | [] => none
      | c :: t => if isDotChar c then matchG5Aux (c :: acc) t else none

/-- ` ?\[` : an optional space (greedy) then the literal bracket. -/
def matchBracket : List Char → Option (List Char)
  | ' ' :: '[' :: t => some t
  | '[' :: t => some t
  | _ => none

/-- ` ?\[(.*?)\] !...` starting at the current position. -/
def tryBracketG5 (s : List Char) : Option (String × String) :=
  (matchBracket s).bind (matchG5Aux [])

/-- `(.*?) ?\[(.*?)\] !...` : lazy group 4 (after the comma of the first
alternative) then bracket, group 5 and tail. -/
def matchG4Aux : List Char → List Char → Option (String × String × String)
  | acc, s =>
    match tryBracketG5 s with
    | some r => some (String.mk acc.reverse, r.1, r.2)
    | none =>
      match s with
      | [] => none
      | c :: t => if isDotChar c then matchG4Aux (c :: acc) t else none

/-- Second alternative ` ?\[(.*?)\] !...` (no group 4). -/
def matchAltB (s : List Char) : Option (Option String × String × String) :=
  (tryBracketG5 s).map (fun r => (none, r.1, r.2))

/-- `(?:,(.*?) ?\[| ?\[)(.*?)\] !...` : the alternation, first branch
preferred. -/
def matchAlt (s : List Char) : Option (Option String × String × String) :=
  match s with
  | ',' :: t =>
    match matchG4Aux [] t with
    | some r => some (some r.1, r.2.1, r.2.2)
    | none => matchAltB s
  | _ => matchAltB s

/-- `(.*?)(?:,(.*?) ?\[| ?\[)(.*?)\] !...` : lazy group 3 then the
alternation. -/
def matchG3Aux : List Char → List Char → Option (String × Option String × String × String)
  | acc, s =>
    match matchAlt s with
    | some r => some (String.mk acc.reverse, r)
    | none =>
      match s with
      | [] => none
      | c :: t => if isDotChar c then matchG3Aux (c :: acc) t else none

/-- Captured groups of the dictionary-line pattern. -/
structure HeaderGroups where
  g1 : List Char
  g2 : List Char
  g3 : String
  g4 : Option String
  g5 : String
  g6 : String
deriving DecidableEq, Repr

/-- `pattern.search(line)` for the dictionary-line pattern (anchored by
`^`, so a match starts at position 0). -/
def matchHeaderLine (line : String) : Option HeaderGroups :=
  let cs := line.data
  let d1 := cs.takeWhile Char.isDigit
  if d1.isEmpty then none else
  match cs.dropWhile Char.isDigit with
  | ',' :: r1 =>
    let d2 := r1.takeWhile Char.isDigit
    if d2.isEmpty then none else
    (match r1.dropWhile Char.isDigit with
     | ',' :: r2 =>
       (matchG3Aux [] r2).map (fun r => ⟨d1, d2, r.1, r.2.1, r.2.2.1, r.2.2.2⟩)
     | _ => none)
  | _ => none

/-! ## `process_header_line` and `read_header`
(`processing/eplus/esofile_reader.pyx`) -/

/-- The `Variable` namedtuple: equality for duplicate detection is on all
four fields. -/
structure Variable where
  table : String
  key : String
  type_ : String
  units : String
deriving DecidableEq, Repr

/-- Result of `process_header_line`:
`(ID, key name, variable name, units, interval)`. -/
structure HeaderLineData where
  line_id : Nat
  key : String
  type_ : String
  units : String
  table : String
deriving DecidableEq, Repr

/-- `process_header_line` : regex match, meter fix-up (`type` absent),
`Each Call` rewrite, lower-cased interval tag.  A failed match
(`AttributeError` in the source) is `none`. -/
def process_header_line (line : String) : Option HeaderLineData :=
  (matchHeaderLine line).map fun g =>
    let kt : String × String :=
      match g.g4 with
      | none => (if pyContains g.g3 "Cumulative" then "Cumulative Meter" else "Meter", g.g3)
      | some t => (g.g3, t)
    let ti : String × String :=
      if g.g6 = "Each Call" then ("System - " ++ kt.2, "TimeStep") else (kt.2, g.g6)
    ⟨digitsVal g.g1, kt.1, ti.1, g.g5, lowerStr ti.2⟩

/-- `dict of {str : dict of {int : Variable}}`. -/
abbrev HeaderT := List (String × List (Nat × Variable))

/-- Error kinds raised by the parser; uncaught Python exceptions keep
their own constructor. -/
inductive PErr where
  | blankLine
  | invalidLineSyntax
  | stopIteration
  | keyError
  | indexError
  | nameError
  | invalidOperation
  | valueError
  | typeError
deriving DecidableEq, Repr

/-- `header[interval][line_id] = Variable(interval, key, type_, units)`
on the `defaultdict`-of-`defaultdict` header. -/
def headerStep (h : HeaderT) (e : HeaderLineData) : HeaderT :=
  aset h e.table (aset ((aget h e.table).getD []) e.line_id ⟨e.table, e.key, e.type_, e.units⟩)

/-- `read_header` : consume lines until `End of Data Dictionary`; a blank
line or an unmatched line is fatal, stream exhaustion raises
`StopIteration` (turned into `IncompleteFile` by the driver).  Returns
the header and the remaining lines. -/
def read_header : List String → HeaderT → Except PErr (HeaderT × List String)
  | [], _ => .error .stopIteration
  | raw :: rest, h =>
    match process_header_line raw with
    | some e => read_header rest (headerStep h e)
    | none =>
      if pyContains raw "End of Data Dictionary" then .ok (h, rest)
      else if raw = "\n" then .error .blankLine
      else .error .invalidLineSyntax

/-- Lookup in a two-level table: `dct[interval][id]`, `none` on either
`KeyError`. -/
def aget2 {γ : Type w} (m : List (String × List (Nat × γ))) (i : String) (id : Nat) :
    Option γ :=
  (aget m i).bind (fun bin => aget bin id)

/-! ## The body state machine (`read_body`)

Follows `processing/eplus/esofile_reader.pyx`; the contents of the
`RawEsoData` container (module `raw_data`, not part of the sources) are
taken from the structurally identical inline dictionaries of the older
`read_body` variant in the sources, which the `.pyx` factored into
methods (`initialize_next_outputs_step` appends one NaN slot to every
series of the interval, the constructor builds empty bins from the
deep-copied header). -/

/-- Canonical interval keys (lower-cased interval tags; the constants
`TS, H, D, M, A, RP` of the sources). -/
def TS : String := "timestep"
def H : String := "hourly"
def D : String := "daily"
def M : String := "monthly"
def A : String := "annual"
def RP : String := "runperiod"

/-- `interval in (M, A, RP)` — the cumulative-days intervals. -/
def isMARP (i : String) : Bool := i = M || i = A || i = RP

/-- `interval in (D, M, A, RP)` — the peak-carrying intervals. -/
def isDMARP (i : String) : Bool := i = D || i = M || i = A || i = RP

/-- `EsoTimestamp(month, day, hour, end_minute)`. -/
structure EsoTimestamp where
  month : Int
  day : Int
  hour : Int
  end_minute : Int
deriving DecidableEq, Repr

/-- A peak-coordinate entry: `float(i) if "." in i else int(i)`. -/
inductive PyNum where
  | i (z : Int)
  | f (q : Dec)
deriving DecidableEq, Repr

/-- A dense output series (`Option Rat` slots, `none` = NaN). -/
abbrev OutSeries := List (Option Dec)

/-- `outputs[interval]`: id-indexed series. -/
abbrev OutBin := List (Nat × OutSeries)

/-- `outputs`: interval-indexed bins. -/
abbrev OutTable := List (String × OutBin)

/-- A peak series: each slot is NaN or a list of coordinates. -/
abbrev PeakSeries := List (Option (List PyNum))

/-- `peak_outputs[interval]`. -/
abbrev PeakBin := List (Nat × PeakSeries)

/-- `peak_outputs`. -/
abbrev PeakTable := List (String × PeakBin)

instance : DecidableEq OutBin := inferInstance
instance : DecidableEq OutTable := inferInstance
instance : DecidableEq PeakSeries := inferInstance
instance : DecidableEq PeakBin := inferInstance
instance : DecidableEq PeakTable := inferInstance

instance : Repr OutBin := inferInstance
instance : Repr OutTable := inferInstance
instance : Repr PeakSeries := inferInstance
instance : Repr PeakBin := inferInstance
instance : Repr PeakTable := inferInstance

/-- One environment under construction (`RawEsoData`): series of
`Option` values with `none` as the NaN sentinel. -/
structure RawEsoData where
  environment_name : String
  header : HeaderT
  dates : List (String × List EsoTimestamp)
  days_of_week : List (String × List String)
  cumulative_days : List (String × List (Option Int))
  outputs : OutTable
  peak_outputs : Option PeakTable
deriving DecidableEq, Repr

/-- Constructor of `RawEsoData`: per-interval empty date/day bins and an
empty series per header id (peak bins only for D/M/A/RP intervals when
peaks are collected). -/
def initRawEsoData (name : String) (header : HeaderT) (ignore_peaks : Bool) : RawEsoData :=
  { environment_name := name
    header := header
    dates := mapVals (fun _ _ => []) header
    days_of_week := mapVals (fun _ _ => []) (header.filter (fun p => ¬ isMARP p.1))
    cumulative_days := mapVals (fun _ _ => []) (header.filter (fun p => isMARP p.1))
    outputs := mapVals (fun _ bin => mapVals (fun _ _ => []) bin) header
    peak_outputs :=
      if ignore_peaks then none
      else some (mapVals (fun _ bin => mapVals (fun _ _ => []) bin)
        (header.filter (fun p => isDMARP p.1))) }

/-- `l[-1] = x` (the caller has checked non-emptiness). -/
def setLast {δ : Type w} (l : List δ) (x : δ) : List δ := l.set (l.length - 1) x

/-- `data[i]` with Python `IndexError` as `none` (non-negative indices;
the sources only use `data[-1]` besides, written out explicitly). -/
def pyIx {δ : Type w} (l : List δ) (i : Nat) : Option δ := l.get? i

/-- `data[-1]` (`IndexError` on an empty list). -/
def pyLast {δ : Type w} (l : List δ) : Option δ := l.getLast?

/-- Result of `process_sub_monthly_interval_line` /
`process_monthly_plus_interval_line`: interval key, stamp, and either a
day-of-week or an optional cumulative-day count. -/
inductive IntervalData where
  | subMonthly (interval : String) (date : EsoTimestamp) (day : String)
  | monthlyPlus (interval : String) (date : EsoTimestamp) (n_days : Option Int)
deriving DecidableEq, Repr

/-- `process_sub_monthly_interval_line` (line ids 2 and 3).
For id 2: `end_minute = int(Decimal(data[6]).to_integral(ROUND_HALF_UP))`,
stamp `(int(data[1]), int(data[2]), int(data[4]), end_minute)`, classified
`H` iff `float(data[5]) == 0 and end_minute == 60`, else `TS`.
For id 3: stamp `(int(data[1]), int(data[2]), 0, 0)`.
`InvalidOperation` from `Decimal` and `KeyError` from the category switch
propagate as themselves; `ValueError` from `int`/`float` is turned into
`InvalidLineSyntax` by the caller (constructor `valueError` here is
represented directly as `invalidLineSyntax` at the call site, so this
function returns the raw error kind). -/
def process_sub_monthly_interval_line (line_id : Int) (data : List String) :
    Except PErr IntervalData :=
  if line_id = 2 then
    match pyIx data 6 with
    | none => .error .indexError
    | some s6 =>
      match pyDecimal s6 with
      | none => .error .invalidOperation
      | some q6 =>
        let end_minute : Int := roundHalfUpDec q6
        match pyIx data 1, pyIx data 2, pyIx data 4 with
        | some s1, some s2, some s4 =>
          match pyInt s1, pyInt s2, pyInt s4 with
          | some m1, some m2, some m4 =>
            let stamp : EsoTimestamp := ⟨m1, m2, m4, end_minute⟩
            match pyIx data 5 with
            | none => .error .indexError
            | some s5 =>
              match pyFloat s5 with
              | none => .error .invalidLineSyntax
              | some q5 =>
                match pyLast data with
                | none => .error .indexError
                | some slast =>
                  if q5.mant = 0 ∧ end_minute = 60 then
                    .ok (.subMonthly H stamp (pyStrip slast))
                  else
                    .ok (.subMonthly TS stamp (pyStrip slast))
          | _, _, _ => .error .invalidLineSyntax
        | _, _, _ => .error .indexError
  else if line_id = 3 then
    match pyIx data 1, pyIx data 2 with
    | some s1, some s2 =>
      match pyInt s1, pyInt s2 with
      | some m1, some m2 =>
        match pyLast data with
        | none => .error .indexError
        | some slast => .ok (.subMonthly D ⟨m1, m2, 0, 0⟩ (pyStrip slast))
      | _, _ => .error .invalidLineSyntax
    | _, _ => .error .indexError
  else .error .keyError

/-- `process_monthly_plus_interval_line` (line ids 4, 5, 6). -/
def process_monthly_plus_interval_line (line_id : Int) (data : List String) :
    Except PErr IntervalData :=
  if line_id = 4 then
    match pyIx data 1, pyIx data 0 with
    | some s1, some s0 =>
      match pyInt s1, pyInt s0 with
      | some m1, some m0 => .ok (.monthlyPlus M ⟨m1, 1, 0, 0⟩ (some m0))
      | _, _ => .error .invalidLineSyntax
    | _, _ => .error .indexError
  else if line_id = 5 then
    match pyIx data 0 with
    | some s0 =>
      match pyInt s0 with
      | some m0 => .ok (.monthlyPlus RP ⟨1, 1, 0, 0⟩ (some m0))
      | none => .error .invalidLineSyntax
    | none => .error .indexError
  else if line_id = 6 then
    .ok (.monthlyPlus A ⟨1, 1, 0, 0⟩ none)
  else .error .keyError

/-- Parser state of `read_body`: the accumulated environments (the
current one is the last — the source mutates the object it has already
appended to the list) and the `interval` local, which starts out unbound
(`none`) and is *not* reset by an environment line. -/
structure BodyState where
  all_raw_data : List RawEsoData
  interval : Option String
deriving DecidableEq, Repr

/-- Initial state of `read_body`. -/
def bodyInit : BodyState := ⟨[], none⟩

/-- Replace the current (= last) environment. -/
def setCurrent (s : BodyState) (e : RawEsoData) : BodyState :=
  ⟨s.all_raw_data.dropLast ++ [e], s.interval⟩

/-- Outcome of processing one body line. -/
inductive StepOut where
  | finished (s : BodyState)
  | next (s : BodyState)
  | failed (e : PErr)
deriving DecidableEq, Repr

/-- The interval field of an `IntervalData`. -/
def IntervalData.interval : IntervalData → String
  | .subMonthly i _ _ => i
  | .monthlyPlus i _ _ => i

/-- The stamp of an `IntervalData`. -/
def IntervalData.date : IntervalData → EsoTimestamp
  | .subMonthly _ d _ => d
  | .monthlyPlus _ d _ => d

/-- Append the interval line data to the current environment:
`dates[interval].append(date)`, the day-of-week / cumulative-days append,
one NaN slot for every series of the interval, and (for line ids ≥ 3 with
peaks enabled) one NaN slot for every peak series of the interval. -/
def applyIntervalLine (cur : RawEsoData) (line_id : Int) (ignore_peaks : Bool)
    (d : IntervalData) : Except PErr RawEsoData :=
  let withExtra : Except PErr RawEsoData :=
    match d with
    | .monthlyPlus i _ n_days =>
      match aget cur.cumulative_days i with
      | none => .error .keyError
      | some l => .ok { cur with cumulative_days := aset cur.cumulative_days i (l ++ [n_days]) }
    | .subMonthly i _ day =>
      match aget cur.days_of_week i with
      | none => .error .keyError
      | some l => .ok { cur with days_of_week := aset cur.days_of_week i (l ++ [day]) }
  withExtra.bind fun cur =>
    let i := d.interval
    let date := d.date
    match aget cur.dates i with
    | none => .error .keyError
    | some dl =>
      let cur := { cur with dates := aset cur.dates i (dl ++ [date]) }
      match aget cur.outputs i with
      | none => .error .keyError
      | some obin =>
        let cur := { cur with
          outputs := aset cur.outputs i (mapVals (fun _ l => l ++ [none]) obin) }
        if ¬ ignore_peaks ∧ line_id ≥ 3 then
          match cur.peak_outputs with
          | none => .error .nameError
          | some pm =>
            match aget pm i with
            | none => .error .keyError
            | some pbin =>
              .ok { cur with
                peak_outputs := some (aset pm i (mapVals (fun _ l => l ++ [none]) pbin)) }
        else .ok cur

/-- `float(i) if "." in i else int(i)` for one peak coordinate. -/
def parsePeakItem (it : String) : Option PyNum :=
  if pyContains it "." then (pyFloat it).map PyNum.f else (pyInt it).map PyNum.i

/-- `[float(i) if "." in i else int(i) for i in line[1:]]`. -/
def parsePeakList (items : List String) : Option (List PyNum) :=
  items.mapM parsePeakItem

/-- Replace the last element of a list of environments. -/
def setLastEnv {δ : Type w} (l : List δ) (x : δ) : List δ := l.dropLast ++ [x]

/-- Process one body line of `read_body`
(`processing/eplus/esofile_reader.pyx`):

* a line whose first comma field is not an `int` terminates on the
  `End of Data` substring, is fatal `BlankLine` for `"\n"`, fatal
  `InvalidLineSyntax` otherwise;
* line id 1 appends a fresh `RawEsoData` built on a (deep-copied) header
  — the `interval` local is left untouched;
* line ids 2..highest parse an interval line (a `ValueError` there is
  `InvalidLineSyntax`) and extend every bin of the interval by one slot;
* higher ids are result records: `float` the first field, overwrite the
  last slot of `outputs[interval][line_id]`, and for D/M/A/RP intervals
  with peaks enabled also parse and overwrite the peak slot.  Lookup
  failures surface as uncaught `KeyError`/`IndexError`/`NameError`. -/
def bodyLineStep (highest_interval_id : Int) (header : HeaderT) (ignore_peaks : Bool)
    (s : BodyState) (raw_line : String) : StepOut :=
  let split_line := pySplit raw_line
  match pyInt (split_line.headD "") with
  | none =>
    if pyContains raw_line "End of Data" then .finished s
    else if raw_line = "\n" then .failed .blankLine
    else .failed .invalidLineSyntax
  | some line_id =>
    let line := split_line.tail
    if line_id ≤ highest_interval_id then
      if line_id = 1 then
        match pyIx line 0 with
        | none => .failed .indexError
        | some s0 =>
          let environment_name := pyStrip s0
          .next ⟨s.all_raw_data ++ [initRawEsoData environment_name header ignore_peaks],
                 s.interval⟩
      else
        let parsed : Except PErr IntervalData :=
          if line_id > 3 then process_monthly_plus_interval_line line_id line
          else process_sub_monthly_interval_line line_id line
        match parsed with
        | .error e => .failed e
        | .ok d =>
          match s.all_raw_data.getLast? with
          | none => .failed .nameError
          | some cur =>
            match applyIntervalLine cur line_id ignore_peaks d with
            | .error e => .failed e
            | .ok cur' =>
              .next ⟨setLastEnv s.all_raw_data cur', some d.interval⟩
    else
      match pyIx line 0 with
      | none => .failed .indexError
      | some s0 =>
        match pyFloat s0 with
        | none => .failed .invalidLineSyntax
        | some res =>
          match s.all_raw_data.getLast? with
          | none => .failed .nameError
          | some cur =>
            match s.interval with
            | none => .failed .keyError
            | some i =>
              match aget cur.outputs i with
              | none => .failed .keyError
              | some obin =>
                match aget obin line_id.toNat with
                | none => .failed .keyError
                | some l =>
                  if l.isEmpty then .failed .indexError
                  else
                    let cur := { cur with
                      outputs := aset cur.outputs i
                        (aset obin line_id.toNat (setLast l (some res))) }
                    if ¬ ignore_peaks ∧ (i = D ∨ i = M ∨ i = A ∨ i = RP) then
                      match parsePeakList line.tail with
                      | none => .failed .invalidLineSyntax
                      | some peak_res =>
                        match cur.peak_outputs with
                        | none => .failed .typeError
                        | some pm =>
                          match aget pm i with
                          | none => .failed .keyError
                          | some pbin =>
                            match aget pbin line_id.toNat with
                            | none => .failed .keyError
                            | some pl =>
                              if pl.isEmpty then .failed .indexError
                              else
                                .next ⟨setLastEnv s.all_raw_data
                                  { cur with peak_outputs := some (aset pm i
                                      (aset pbin line_id.toNat (setLast pl (some peak_res)))) },
                                  s.interval⟩
                    else .next ⟨setLastEnv s.all_raw_data cur, s.interval⟩

/-- `read_body`: drive `bodyLineStep` down the line list; `End of Data`
returns the accumulated environments, stream exhaustion is
`StopIteration`. -/
def read_body (lines : List String) (highest_interval_id : Int) (header : HeaderT)
    (ignore_peaks : Bool) (s : BodyState) : Except PErr (List RawEsoData) :=
  match lines with
  | [] => .error .stopIteration
  | raw :: rest =>
    match bodyLineStep highest_interval_id header ignore_peaks s raw with
    | .finished s' => .ok s'.all_raw_data
    | .next s' => read_body rest highest_interval_id header ignore_peaks s'
    | .failed e => .error e

/-! ## The older result-record handler
(`processing/extensions/esofile.pyi`)

That variant of `read_body` wraps the series overwrite in
`try/except KeyError` and prints
`"Ignoring ..., variable is not included in header!"` instead of
failing, so a result record with an unknown id is reported and dropped.
Only its result branch is embedded (the state it touches is
`all_outputs[-1]` / `all_peak_outputs[-1]` and the `interval` local). -/

/-- `_process_result_line` followed by the guarded overwrite of the old
variant.  Returns the (possibly unchanged) pair of output stores; a
caught `KeyError` leaves them untouched. -/
def ext_result_step (ignore_peaks : Bool) (interval : Option String)
    (all_outputs : List OutTable) (all_peak_outputs : List (Option PeakTable))
    (line_id : Int) (line : List String) :
    Except PErr (List OutTable × List (Option PeakTable)) :=
  match pyIx line 0 with
  | none => .error .indexError
  | some s0 =>
    match pyFloat s0 with
    | none => .error .valueError
    | some res =>
      let peakParsed : Except PErr (Option (List PyNum)) :=
        if ignore_peaks then .ok none
        else
          match parsePeakList line.tail with
          | none => .error .valueError
          | some pr => .ok (some pr)
      peakParsed.bind fun peak_res =>
        match all_outputs.getLast? with
        | none => .error .indexError
        | some outs =>
          match interval with
          | none => .ok (all_outputs, all_peak_outputs)
          | some i =>
            match aget outs i with
            | none => .ok (all_outputs, all_peak_outputs)
            | some obin =>
              match aget obin line_id.toNat with
              | none => .ok (all_outputs, all_peak_outputs)
              | some l =>
                if l.isEmpty then .error .indexError
                else
                  let outs' := aset outs i (aset obin line_id.toNat (setLast l (some res)))
                  let all_outputs' := setLastEnv all_outputs outs'
                  match peak_res with
                  | none => .ok (all_outputs', all_peak_outputs)
                  | some pr =>
                    if pr.isEmpty then .ok (all_outputs', all_peak_outputs)
                    else
                      match all_peak_outputs.getLast? with
                      | none => .error .indexError
                      | some none => .error .typeError
                      | some (some pouts) =>
                        match aget pouts i with
                        | none => .ok (all_outputs', all_peak_outputs)
                        | some pbin =>
                          match aget pbin line_id.toNat with
                          | none => .ok (all_outputs', all_peak_outputs)
                          | some pl =>
                            if pl.isEmpty then .error .indexError
                            else
                              .ok (all_outputs',
                                setLastEnv all_peak_outputs
                                  (some (aset pouts i
                                    (aset pbin line_id.toNat (setLast pl (some pr))))))

/-! ## Duplicate pruning -/

/-- `del dct[v.table][id_]` under `contextlib.suppress(KeyError)`:
missing interval bin or missing id are silently ignored. -/
def delFromTable {δ : Type w} (m : List (String × List (Nat × δ))) (i : String) (id : Nat) :
    List (String × List (Nat × δ)) :=
  match aget m i with
  | none => m
  | some bin => aset m i (adel bin id)

/-- `remove_duplicates(duplicates, header, outputs, peak_outputs)`
(`raw_tables` module): for every duplicate id, delete it under the
variable's interval from the header, the outputs and (when present) the
peak outputs; every `KeyError` is suppressed, a `None` peak store is
skipped. -/
def remove_duplicates (duplicates : List (Nat × Variable)) (header : HeaderT)
    (outputs : OutTable) (peak_outputs : Option PeakTable) :
    HeaderT × OutTable × Option PeakTable :=
  duplicates.foldl
    (fun acc dv =>
      (delFromTable acc.1 dv.2.table dv.1,
       delFromTable acc.2.1 dv.2.table dv.1,
       acc.2.2.map (fun pp => delFromTable pp dv.2.table dv.1)))
    (header, outputs, peak_outputs)

/-- Modelled from the spec: the duplicate collection performed while the
`SearchIndex` (`Tree.from_header_dict`, module `search_tree`, not part of
the sources) is built — "Insertion of a Variable whose
`(interval, key, type, units)` already exists in the index is a
duplicate: the duplicate's id and Variable are collected into a
duplicates map; the first id wins in the index."  One interval bin,
threading the set of Variables seen so far. -/
def collectBin : List Variable → List (Nat × Variable) → List Variable × List (Nat × Variable)
  | seen, [] => (seen, [])
  | seen, (id, v) :: t =>
    if v ∈ seen then
      let r := collectBin seen t
      (r.1, (id, v) :: r.2)
    else collectBin (v :: seen) t

/-- Modelled from the spec: duplicate collection over the whole header,
bins in insertion order. -/
def collectHeader : List Variable → HeaderT → List Variable × List (Nat × Variable)
  | seen, [] => (seen, [])
  | seen, (_, bin) :: t =>
    let r := collectBin seen bin
    let r2 := collectHeader r.1 t
    (r2.1, r.2 ++ r2.2)

/-- Modelled from the spec: the duplicates map produced by building the
search index from a header. -/
def collectDuplicates (h : HeaderT) : List (Nat × Variable) :=
  (collectHeader [] h).2

/-- Well-formedness of a header as produced from Python dicts: top-level
keys are distinct, bin keys are distinct, and every variable is binned
under its own interval. -/
def WFHeader (h : HeaderT) : Prop :=
  (h.map Prod.fst).Nodup ∧
  ∀ p ∈ h, ((p.2.map Prod.fst).Nodup ∧ ∀ q ∈ p.2, (q.2 : Variable).table = p.1)

instance (h : HeaderT) : Decidable (WFHeader h) := by
  unfold WFHeader
  infer_instance

/-! ## A traced `read_body` for the sparse-series specification

The trace machine runs the very same `bodyLineStep` and additionally
logs, for every successfully stored result record, the target interval,
the step index (`len(dates[interval]) - 1` at that moment), the id and
the parsed value — i.e. the "result record for v at the k-th step of i"
language of the specification.  Erasing the trace gives back `read_body`
-/

/-- One logged result record. -/
structure TraceRec where
  interval : String
  step : Nat
  id : Nat
  value : Dec
deriving DecidableEq, Repr

/-- Traced parser state: the real state plus one record list per
environment. -/
structure TBodyState where
  base : BodyState
  traces : List (List TraceRec)
deriving DecidableEq, Repr

/-- Initial traced state. -/
def tBodyInit : TBodyState := ⟨bodyInit, []⟩

/-- Outcome of one traced step. -/
inductive TStepOut where
  | finished (s : TBodyState)
  | next (s : TBodyState)
  | failed (e : PErr)
deriving DecidableEq, Repr

/-- Does this line open a new environment? -/
def isEnvLine (highest_interval_id : Int) (raw_line : String) : Bool :=
  match pyInt ((pySplit raw_line).headD "") with
  | some line_id => line_id ≤ highest_interval_id && line_id = 1
  | none => false

/-- The trace record a successful result line would store: defined from
the state before the step.  `none` for anything that is not a stored
result record. -/
def resultRec (highest_interval_id : Int) (s : BodyState) (raw_line : String) :
    Option TraceRec :=
  let split_line := pySplit raw_line
  match pyInt (split_line.headD "") with
  | none => none
  | some line_id =>
    if line_id ≤ highest_interval_id then none
    else
      match pyIx split_line.tail 0 with
      | none => none
      | some s0 =>
        match pyFloat s0 with
        | none => none
        | some res =>
          match s.all_raw_data.getLast? with
          | none => none
          | some cur =>
            match s.interval with
            | none => none
            | some i =>
              match aget cur.dates i with
              | none => none
              | some ds => some ⟨i, ds.length - 1, line_id.toNat, res⟩

/-- One traced step: run `bodyLineStep` and log. -/
def bodyLineStepT (highest_interval_id : Int) (header : HeaderT) (ignore_peaks : Bool)
    (ts : TBodyState) (raw_line : String) : TStepOut :=
  match bodyLineStep highest_interval_id header ignore_peaks ts.base raw_line with
  | .failed e => .failed e
  | .finished s' => .finished ⟨s', ts.traces⟩
  | .next s' =>
    if isEnvLine highest_interval_id raw_line then .next ⟨s', ts.traces ++ [[]]⟩
    else
      match resultRec highest_interval_id ts.base raw_line with
      | some r => .next ⟨s', setLastEnv ts.traces ((ts.traces.getLast?.getD []) ++ [r])⟩
      | none => .next ⟨s', ts.traces⟩

/-- The traced `read_body`. -/
def read_bodyT (lines : List String) (highest_interval_id : Int) (header : HeaderT)
    (ignore_peaks : Bool) (ts : TBodyState) :
    Except PErr (List RawEsoData × List (List TraceRec)) :=
  match lines with
  | [] => .error .stopIteration
  | raw :: rest =>
    match bodyLineStepT highest_interval_id header ignore_peaks ts raw with
    | .finished ts' => .ok (ts'.base.all_raw_data, ts'.traces)
    | .next ts' => read_bodyT rest highest_interval_id header ignore_peaks ts'
    | .failed e => .error e

/-- Does a record match slot `(i, v)` at step `k`? -/
def recMatches (i : String) (v : Nat) (k : Nat) (r : TraceRec) : Bool :=
  r.interval = i && r.id = v && r.step = k

/-- The value of the last result record for variable `v` at step `k` of
interval `i` in an environment's trace; `none` when no record was stored
there. -/
def specLast (tr : List TraceRec) (i : String) (v : Nat) (k : Nat) : Option Dec :=
  ((tr.filter (recMatches i v k)).getLast?).map TraceRec.value

/-! ## Concrete demonstration inputs -/

/-- A header with ids 7 and 8 in the TimeStep interval (scenario S5). -/
def hdrTS : HeaderT :=
  [("timestep", [(7, ⟨"timestep", "Environment", "T", "C"⟩),
                 (8, ⟨"timestep", "Environment", "U", "C"⟩)])]

/-- Scenario S5: one environment, two TS markers, one result `7,21.5`
between them. -/
def s5body : List String :=
  ["1,TEST ENV\n", "2,1,1,1,0,1,0,30,Monday\n", "7,21.5\n",
   "2,1,1,1,0,2,0,30,Monday\n", "End of Data\n"]

/-- Two environments; the second receives a result record before any of
its interval markers. -/
def c6body : List String :=
  ["1,ENV1\n", "2,1,1,1,0,1,0,30,Monday\n", "7,1.0\n",
   "1,ENV2\n", "7,2.0\n", "End of Data\n"]

/-- A body interrupted by a stray `End of Data Dictionary` line. -/
def c9body : List String :=
  ["1,ENV1\n", "2,1,1,1,0,1,0,30,Monday\n",
   "End of Data Dictionary\n", "7,2.0\n"]

/-- Scenario S6: two daily variables sharing `(interval,key,type,units)`.
-/
def hdrDup : HeaderT :=
  [("daily", [(10, ⟨"daily", "E", "Temp", "C"⟩),
              (11, ⟨"daily", "E", "Temp", "C"⟩)])]

/-- Outputs for `hdrDup` after one daily step. -/
def outDup : OutTable :=
  [("daily", [(10, [some ⟨1, 0⟩]), (11, [some ⟨2, 0⟩])])]

/-- The interval tags an EnergyPlus dictionary carries. -/
def canonicalTags : List String :=
  ["TimeStep", "Hourly", "Daily", "Monthly", "RunPeriod", "Annual", "Each Call"]

/-- The deletion fold of `remove_duplicates` on a single table. -/
def foldDel {δ : Type w} (duplicates : List (Nat × Variable))
    (m : List (String × List (Nat × δ))) : List (String × List (Nat × δ)) :=
  duplicates.foldl (fun acc dv => delFromTable acc dv.2.table dv.1) m

/-- Series of the given id in the first environment of a parse result. -/
def firstEnvOutputs (r : Except PErr (List RawEsoData)) (i : String) (id : Nat) :
    Option OutSeries :=
  match r with
  | .ok (e :: _) => aget2 e.outputs i id
  | _ => none

/-- The length invariant of one environment: every output series of an
interval is as long as its date list, output bins cover the header, peak
bins exist only for D/M/A/RP and are equally synchronised. -/
def EnvLens (e : RawEsoData) : Prop :=
  (∀ i ds, aget e.dates i = some ds →
     ∀ obin, aget e.outputs i = some obin →
       ∀ id l, aget obin id = some l → l.length = ds.length) ∧
  (∀ i hbin, aget e.header i = some hbin →
     (aget e.dates i).isSome = true ∧ (aget e.outputs i).isSome = true ∧
     ∀ id v, aget hbin id = some v → (aget2 e.outputs i id).isSome = true) ∧
  (∀ pm, e.peak_outputs = some pm →
     (∀ i pbin, aget pm i = some pbin → isDMARP i = true ∧
        ∀ id pl, aget pbin id = some pl →
          ∀ ds, aget e.dates i = some ds → pl.length = ds.length) ∧
     (∀ i hbin, aget e.header i = some hbin → isDMARP i = true →
        (aget pm i).isSome = true ∧
        ∀ id v, aget hbin id = some v → (aget2 pm i id).isSome = true))

/-- State-level invariant of `read_body` for C1: all accumulated
environments satisfy the length invariant, and peaks are stored whenever
they are collected. -/
def AllLens (ignore_peaks : Bool) (s : BodyState) : Prop :=
  ∀ e ∈ s.all_raw_data,
    EnvLens e ∧ e.peak_outputs.isSome = !ignore_peaks

/-- The C2 invariant tying the traced records to the dense series: every
record points below the current step count, and every slot of every
series holds exactly the last record stored for it (`none` when there is
none). -/
def TraceInv (ts : TBodyState) : Prop :=
  ts.traces.length = ts.base.all_raw_data.length ∧
  ∀ eIdx env tr, ts.base.all_raw_data.get? eIdx = some env →
    ts.traces.get? eIdx = some tr →
    (∀ r ∈ tr, ∃ ds, aget env.dates r.interval = some ds ∧ r.step < ds.length) ∧
    (∀ i ds obin, aget env.dates i = some ds → aget env.outputs i = some obin →
       ∀ id l, aget obin id = some l →
         l.length = ds.length ∧ ∀ k, k < ds.length → l.get? k = some (specLast tr i id k))

/-- A body state with one open environment over `hdrTS` (used for the C9
witness: a stray dictionary sentinel inside a body returns the
environments accumulated so far). -/
def c9state : BodyState := ⟨[initRawEsoData "ENV1" hdrTS true], some TS⟩

/-- A single daily variable for exercising the peak branches. -/
def hdrD : HeaderT := [("daily", [(9, ⟨"daily", "Environment", "T", "C"⟩)])]

/-- One environment, one daily marker, one daily result with peak
coordinates. -/
def dailyBody : List String :=
  ["1,ENV1\n", "3,1,1,1,0,Monday\n", "9,5.0,1.2,10,20,3.4,11,30\n", "End of Data\n"]

/-- The first environment produced by the S5 run. -/
def s5env : RawEsoData :=
  match read_body s5body 6 hdrTS true bodyInit with
  | .ok (e :: _) => e
  | _ => initRawEsoData "" [] true

/-- The first environment produced by the daily peak run. -/
def dailyEnv : RawEsoData :=
  match read_body dailyBody 6 hdrD false bodyInit with
  | .ok (e :: _) => e
  | _ => initRawEsoData "" [] true

/-- The full environment list of the S5 run. -/
def s5envList : List RawEsoData :=
  match read_body s5body 6 hdrTS true bodyInit with
  | .ok l => l
  | _ => []

/-- The full environment list of the daily peak run. -/
def dailyEnvList : List RawEsoData :=
  match read_body dailyBody 6 hdrD false bodyInit with
  | .ok l => l
  | _ => []

/-- State after the environment line `1,ENV2` is processed from
`c9state`: one more environment, same interval pointer. -/
def c6envStepState : BodyState :=
  ⟨c9state.all_raw_data ++ [initRawEsoData "ENV2" hdrTS true], c9state.interval⟩

/-- A first environment with no interval marker seen yet. -/
def c6stateFirst : BodyState := ⟨[initRawEsoData "E" hdrTS true], none⟩

/-! ## Lemma zone -/

@[simp] theorem aget_nil [DecidableEq α] (k : α) : aget ([] : List (α × β)) k = none := rfl

theorem aget_cons [DecidableEq α] (p : α × β) (t : List (α × β)) (k : α) :
    aget (p :: t) k = if p.1 = k then some p.2 else aget t k := rfl

@[simp] theorem aget_aset_self [DecidableEq α] (m : List (α × β)) (k : α) (v : β) :
    aget (aset m k v) k = some v := by
  induction m with
  | nil => simp [aset, aget]
  | cons p t ih =>
    by_cases h : p.1 = k
    · simp [aset, h, aget]
    · simp [aset, h, aget, ih]

theorem aget_aset_ne [DecidableEq α] (m : List (α × β)) (k k' : α) (v : β) (h : k' ≠ k) :
    aget (aset m k v) k' = aget m k' := by
  induction m with
  | nil => simp [aset, aget, Ne.symm h]
  | cons p t ih =>
    obtain ⟨a, b⟩ := p
    by_cases hp : a = k
    · subst hp
      simp [aset, aget, Ne.symm h, h]
    · simp [aset, hp, aget, ih]

theorem adel_cons [DecidableEq α] (p : α × β) (t : List (α × β)) (k : α) :
    adel (p :: t) k = if p.1 = k then adel t k else p :: adel t k := by
  by_cases h : p.1 = k <;> simp [adel, h]

@[simp] theorem aget_adel_self [DecidableEq α] (m : List (α × β)) (k : α) :
    aget (adel m k) k = none := by
  induction m with
  | nil => simp [adel, aget]
  | cons p t ih =>
    obtain ⟨a, b⟩ := p
    by_cases h : a = k
    · simpa [adel, h] using ih
    · simpa [adel, h, aget] using ih

theorem aget_adel_ne [DecidableEq α] (m : List (α × β)) (k k' : α) (h : k' ≠ k) :
    aget (adel m k) k' = aget m k' := by
  induction m with
  | nil => simp [adel]
  | cons p t ih =>
    obtain ⟨a, b⟩ := p
    by_cases hp : a = k
    · subst hp
      simpa [adel_cons, aget, Ne.symm h] using ih
    · by_cases hp' : a = k'
      · simp [adel_cons, hp, aget, hp', h]
      · simpa [adel_cons, hp, aget, hp'] using ih

theorem aget_mapVals [DecidableEq α] (f : α → β → γ) (m : List (α × β)) (k : α) :
    aget (mapVals f m) k = (aget m k).map (f k) := by
  induction m with
  | nil => simp [mapVals, aget]
  | cons p t ih =>
    obtain ⟨a, b⟩ := p
    by_cases h : a = k
    · subst h; simp [mapVals, aget]
    · simpa [mapVals, aget, h] using ih

theorem aset_self_of_aget [DecidableEq α] (m : List (α × β)) (k : α) (v : β)
    (h : aget m k = some v) : aset m k v = m := by
  induction m with
  | nil => simp [aget] at h
  | cons p t ih =>
    obtain ⟨a, b⟩ := p
    by_cases hp : a = k
    · subst hp
      simp [aget] at h
      simp [aset, h]
    · simp [aget, hp] at h
      simp [aset, hp, ih h]

theorem adel_self_of_aget [DecidableEq α] (m : List (α × β)) (k : α)
    (h : aget m k = none) : adel m k = m := by
  induction m with
  | nil => simp [adel]
  | cons p t ih =>
    obtain ⟨a, b⟩ := p
    by_cases hp : a = k
    · simp [aget, hp] at h
    · simp [aget, hp] at h
      simp [adel_cons, hp, ih h]

theorem aget_none_iff_keys [DecidableEq α] (m : List (α × β)) (k : α) :
    aget m k = none ↔ ∀ v, (k, v) ∉ m := by
  induction m with
  | nil => simp [aget]
  | cons p t ih =>
    obtain ⟨a, b⟩ := p
    by_cases hp : a = k
    · subst hp
      constructor
      · intro h; simp [aget] at h
      · intro h
        exact absurd (h b) (by simp)
    · simp only [aget, hp, if_false, ih]
      constructor
      · intro h v hv
        rcases List.mem_cons.mp hv with h1 | h1
        · exact hp (congrArg Prod.fst h1.symm)
        · exact h v h1
      · intro h v hv
        exact h v (List.mem_cons_of_mem _ hv)

theorem aget_mem [DecidableEq α] {m : List (α × β)} {k : α} {v : β}
    (h : aget m k = some v) : (k, v) ∈ m := by
  induction m with
  | nil => simp [aget] at h
  | cons p t ih =>
    obtain ⟨a, b⟩ := p
    by_cases hp : a = k
    · subst hp
      simp [aget] at h
      subst h
      exact List.mem_cons_self _ _
    · simp [aget, hp] at h
      exact List.mem_cons_of_mem _ (ih h)


/-! ## C5: end-minute rounding and TS/H classification -/

theorem Dec.toRat_eq_zero_iff (d : Dec) : d.toRat = 0 ↔ d.mant = 0 := by
  unfold Dec.toRat powTenZ
  split
  · rw [mul_eq_zero]
    simp
  · rw [div_eq_zero_iff]
    simp

theorem roundHalfUp_intCast (n : Int) : roundHalfUp (n : Rat) = n := by
  unfold roundHalfUp
  have hhalf : Int.floor ((1 : Rat) / 2) = 0 := by norm_num
  split
  · rw [show (-(n : Rat) + 1 / 2) = 1 / 2 + ((-n : Int) : Rat) by push_cast; ring,
      Int.floor_add_int, hhalf]
    omega
  · rw [show ((n : Rat) + 1 / 2) = 1 / 2 + ((n : Int) : Rat) by ring,
      Int.floor_add_int, hhalf]
    omega

theorem floor_nat_div_add_half (a dn : Nat) (h : 0 < dn) :
    Int.floor ((a : Rat) / (dn : Rat) + 1 / 2) =
      ((a / dn + (if dn ≤ 2 * (a % dn) then 1 else 0) : Nat) : Int) := by
  have hdn : ((dn : Rat)) ≠ 0 := by
    exact_mod_cast Nat.pos_iff_ne_zero.mp h
  have hq : ((a : Rat) / (dn : Rat) + 1 / 2) =
      (((2 * a + dn : Nat) : Rat) / ((2 * dn : Nat) : Rat)) := by
    push_cast
    field_simp
    ring
  rw [hq, Rat.floor_natCast_div_natCast]
  have hr : a % dn < dn := Nat.mod_lt _ h
  have ha : dn * (a / dn) + a % dn = a := Nat.div_add_mod a dn
  have key : (2 * a + dn) / (2 * dn) = a / dn + (if dn ≤ 2 * (a % dn) then 1 else 0) := by
    have h2 : 0 < 2 * dn := by omega
    have hsum : 2 * a + dn = (2 * dn) * (a / dn) + (2 * (a % dn) + dn) := by
      have hmul : (2 * dn) * (a / dn) = 2 * (dn * (a / dn)) := by ring
      omega
    rw [hsum, Nat.mul_add_div h2]
    congr 1
    split
    · exact Nat.div_eq_of_lt_le (by omega) (by omega)
    · exact Nat.div_eq_of_lt (by omega)
  exact_mod_cast congrArg (fun n : Nat => (n : Int)) key

/-- `roundHalfUpDec` computes exactly the half-up (ties away from zero)
rounding of the exact rational value of the decimal. -/
theorem roundHalfUpDec_eq (d : Dec) : roundHalfUpDec d = roundHalfUp d.toRat := by
  obtain ⟨m, e⟩ := d
  unfold roundHalfUpDec Dec.toRat powTenZ
  by_cases hexp : 0 ≤ e
  · rw [if_pos hexp, if_pos hexp]
    dsimp only
    rw [show ((m : Rat) * (10 : Rat) ^ e.toNat) = ((m * 10 ^ e.toNat : Int) : Rat) by
      push_cast; ring]
    rw [roundHalfUp_intCast]
  · rw [if_neg hexp, if_neg hexp]
    dsimp only
    have hdn : (0 : Nat) < 10 ^ (-e).toNat := Nat.pos_pow_of_pos _ (by omega)
    have hcast : (((10 : Nat) ^ (-e).toNat : Nat) : Rat) = (10 : Rat) ^ (-e).toNat := by
      push_cast
      ring
    have habs : ((m.natAbs : Nat) : Rat) = |(m : Rat)| := by
      simp [Int.cast_natAbs]
    by_cases hm : 0 ≤ m
    · rw [if_pos hm]
      unfold roundHalfUp
      have hq0 : ¬ ((m : Rat) / (10 : Rat) ^ (-e).toNat < 0) := by
        push_neg
        apply div_nonneg
        · exact_mod_cast hm
        · positivity
      rw [if_neg hq0]
      have hval : (m : Rat) / (10 : Rat) ^ (-e).toNat
          = ((m.natAbs : Nat) : Rat) / (((10 : Nat) ^ (-e).toNat : Nat) : Rat) := by
        rw [habs, hcast, abs_of_nonneg (by exact_mod_cast hm : (0 : Rat) ≤ (m : Rat))]
      rw [hval, floor_nat_div_add_half _ _ hdn]
    · rw [if_neg hm]
      unfold roundHalfUp
      have hmlt : m < 0 := by omega
      have hq0 : (m : Rat) / (10 : Rat) ^ (-e).toNat < 0 := by
        apply div_neg_of_neg_of_pos
        · exact_mod_cast hmlt
        · positivity
      rw [if_pos hq0]
      have hval : -((m : Rat) / (10 : Rat) ^ (-e).toNat)
          = ((m.natAbs : Nat) : Rat) / (((10 : Nat) ^ (-e).toNat : Nat) : Rat) := by
        rw [habs, hcast, abs_of_neg (by exact_mod_cast hmlt : (m : Rat) < 0)]
        rw [neg_div]
      rw [hval, floor_nat_div_add_half _ _ hdn]

/-- C5: for a TS/H interval-marker line (line id 2) with raw end-minute
literal `s6` and raw start-minute literal `s5`, the stored stamp's
end-minute equals the half-up rounding of the exact decimal value of
`s6`, and the marker is classified Hourly iff `s5` parses to `0` and the
rounded end-minute equals `60`, otherwise TimeStep. -/
theorem c5_end_minute_round_half_up
    (data : List String) (i : String) (st : EsoTimestamp) (day : String)
    (s5 s6 : String) (q5 q6 : Dec)
    (h5 : pyIx data 5 = some s5) (h6 : pyIx data 6 = some s6)
    (hf5 : pyFloat s5 = some q5) (hq : pyDecimal s6 = some q6)
    (hok : process_sub_monthly_interval_line 2 data = .ok (.subMonthly i st day)) :
    st.end_minute = roundHalfUp q6.toRat ∧
    (i = H ↔ q5.toRat = 0 ∧ roundHalfUp q6.toRat = 60) ∧
    (i = H ∨ i = TS) := by
  unfold process_sub_monthly_interval_line at hok
  rw [if_pos rfl, h6] at hok
  dsimp only at hok
  rw [hq] at hok
  dsimp only at hok
  rw [← roundHalfUpDec_eq]
  split at hok
  case _ s1 s2 s4 e1 e2 e4 =>
    split at hok
    case _ m1 m2 m4 f1 f2 f4 =>
      split at hok
      case _ => exact absurd hok (by simp)
      case _ s5x e5 =>
        rw [h5] at e5
        injection e5 with e5
        subst e5
        split at hok
        case _ => exact absurd hok (by simp)
        case _ q5x hf5x =>
          rw [hf5] at hf5x
          injection hf5x with hf5x
          subst hf5x
          split at hok
          case _ => exact absurd hok (by simp)
          case _ slast hlast =>
            split at hok
            case isTrue hcond =>
              simp only [Except.ok.injEq, IntervalData.subMonthly.injEq] at hok
              obtain ⟨hi, hst, _⟩ := hok
              subst hi
              subst hst
              refine ⟨rfl, ?_, Or.inl rfl⟩
              constructor
              · intro _
                exact ⟨(Dec.toRat_eq_zero_iff _).mpr hcond.1, hcond.2⟩
              · intro _
                rfl
            case isFalse hcond =>
              simp only [Except.ok.injEq, IntervalData.subMonthly.injEq] at hok
              obtain ⟨hi, hst, _⟩ := hok
              subst hi
              subst hst
              refine ⟨rfl, ?_, Or.inr rfl⟩
              constructor
              · intro hTSH
                exact absurd hTSH (by decide)
              · intro hzq
                exact absurd ⟨(Dec.toRat_eq_zero_iff _).mp hzq.1, hzq.2⟩ hcond
    case _ => exact absurd hok (by simp)
  case _ => exact absurd hok (by simp)

/-- C5 witness: the marker data
`[1,1,1,0,1,0,59.999999,Monday]` rounds `59.999999` up to 60 and is
classified Hourly. -/
theorem c5_end_minute_round_half_up_witness :
    ((⟨1, 1, 1, 60⟩ : EsoTimestamp).end_minute
       = roundHalfUp (Dec.toRat ⟨59999999, -6⟩)) ∧
    (H = H ↔ Dec.toRat ⟨0, 0⟩ = 0 ∧ roundHalfUp (Dec.toRat ⟨59999999, -6⟩) = 60) ∧
    (H = H ∨ H = TS) :=
  c5_end_minute_round_half_up
    ["1", "1", "1", "0", "1", "0", "59.999999", "Monday\n"]
    H ⟨1, 1, 1, 60⟩ "Monday" "0" "59.999999" ⟨0, 0⟩ ⟨59999999, -6⟩
    (by decide) (by decide) (by decide) (by decide) (by decide)

/-! ## C9: body termination on the End of Data substring -/

/-- C9: `read_body` terminates normally on any line whose first comma
field is not an integer and whose text contains `End of Data` anywhere,
returning the environments accumulated so far — the exact sentinel is
not required, so a stray `End of Data Dictionary` inside the body also
ends parsing. -/
theorem c9_end_of_data_substring_terminates
    (rest : List String) (raw : String) (highest_interval_id : Int)
    (header : HeaderT) (ignore_peaks : Bool) (s : BodyState)
    (hint : pyInt ((pySplit raw).headD "") = none)
    (hsub : pyContains raw "End of Data" = true) :
    read_body (raw :: rest) highest_interval_id header ignore_peaks s
      = .ok s.all_raw_data := by
  simp only [read_body, bodyLineStep, hint, hsub, if_true]

/-- C9 witness: the header sentinel `End of Data Dictionary` ends body
parsing from the initial state and from a state with an accumulated
environment. -/
theorem c9_end_of_data_substring_terminates_witness :
    read_body ["End of Data Dictionary\n"] 6 hdrTS true bodyInit
      = .ok bodyInit.all_raw_data ∧
    read_body ["End of Data Dictionary\n", "7,2.0\n"] 6 hdrTS true c9state
      = .ok c9state.all_raw_data :=
  ⟨c9_end_of_data_substring_terminates [] "End of Data Dictionary\n" 6 hdrTS true
      bodyInit (by decide) (by decide),
   c9_end_of_data_substring_terminates ["7,2.0\n"] "End of Data Dictionary\n" 6 hdrTS
      true c9state (by decide) (by decide)⟩

/-! ## C10: read_header id collisions -/

/-- C10: `read_header` never fails on id collisions: two dictionary
lines with the same id under the same interval leave the Variable of the
later line in the header (last write wins), while the same id under two
different interval tags is retained in both bins; uniqueness is neither
enforced nor detected. -/
theorem c10_read_header_id_collisions
    (h : HeaderT) (rest : List String) (raw1 raw2 : String) (e1 e2 : HeaderLineData)
    (h1 : process_header_line raw1 = some e1)
    (h2 : process_header_line raw2 = some e2) :
    read_header (raw1 :: raw2 :: rest) h
      = read_header rest (headerStep (headerStep h e1) e2) ∧
    (e1.table = e2.table → e1.line_id = e2.line_id →
      aget2 (headerStep (headerStep h e1) e2) e2.table e2.line_id
        = some ⟨e2.table, e2.key, e2.type_, e2.units⟩) ∧
    (e1.table ≠ e2.table →
      aget2 (headerStep (headerStep h e1) e2) e1.table e1.line_id
        = some ⟨e1.table, e1.key, e1.type_, e1.units⟩ ∧
      aget2 (headerStep (headerStep h e1) e2) e2.table e2.line_id
        = some ⟨e2.table, e2.key, e2.type_, e2.units⟩) := by
  refine ⟨?_, ?_, ?_⟩
  · simp only [read_header, h1, h2]
  · intro _ _
    unfold headerStep aget2
    rw [aget_aset_self]
    simp only [Option.some_bind]
    rw [aget_aset_self]
  · intro hne
    constructor
    · unfold headerStep aget2
      rw [aget_aset_ne _ _ _ _ hne, aget_aset_self]
      simp only [Option.some_bind]
      rw [aget_aset_self]
    · unfold headerStep aget2
      rw [aget_aset_self]
      simp only [Option.some_bind]
      rw [aget_aset_self]

/-- C10 witness: a duplicated TimeStep id keeps the later Variable, and
the same id under two intervals is kept under both (two applications of
the theorem, a same-interval collision and a cross-interval one). -/
theorem c10_read_header_id_collisions_witness :
    (aget2 (headerStep (headerStep []
        ⟨7, "Environment", "T", "C", "timestep"⟩) ⟨7, "Environment", "U", "C", "timestep"⟩)
        "timestep" 7 = some ⟨"timestep", "Environment", "U", "C"⟩) ∧
    (aget2 (headerStep (headerStep []
        ⟨7, "Environment", "T", "C", "timestep"⟩) ⟨7, "Environment", "T", "C", "hourly"⟩)
        "timestep" 7 = some ⟨"timestep", "Environment", "T", "C"⟩ ∧
     aget2 (headerStep (headerStep []
        ⟨7, "Environment", "T", "C", "timestep"⟩) ⟨7, "Environment", "T", "C", "hourly"⟩)
        "hourly" 7 = some ⟨"hourly", "Environment", "T", "C"⟩) :=
  ⟨(c10_read_header_id_collisions [] []
      "7,1,Environment,T [C] !TimeStep\n" "7,1,Environment,U [C] !TimeStep\n"
      ⟨7, "Environment", "T", "C", "timestep"⟩ ⟨7, "Environment", "U", "C", "timestep"⟩
      (by decide) (by decide)).2.1 rfl rfl,
   (c10_read_header_id_collisions [] []
      "7,1,Environment,T [C] !TimeStep\n" "7,1,Environment,T [C] !Hourly\n"
      ⟨7, "Environment", "T", "C", "timestep"⟩ ⟨7, "Environment", "T", "C", "hourly"⟩
      (by decide) (by decide)).2.2 (by decide)⟩

/-! ## C3: unknown result ids are dropped (extensions variant) -/

/-- C3: in the result-record handler that guards the series overwrite
with `except KeyError` (`processing/extensions/esofile.pyi`), a result
record whose id is not a key of the current interval's store does not
fail the parse: the value is dropped (the source prints a warning) and
the accumulated outputs and peak outputs are returned unchanged — the
environments and date bins are not even touched by result handling. -/
theorem c3_unknown_result_id_dropped
    (ignore_peaks : Bool) (i : String) (all_outputs : List OutTable)
    (all_peak_outputs : List (Option PeakTable)) (outs : OutTable) (obin : OutBin)
    (line_id : Int) (line : List String) (s0 : String) (res : Dec)
    (h0 : pyIx line 0 = some s0) (hres : pyFloat s0 = some res)
    (hpk : ignore_peaks = false → parsePeakList line.tail ≠ none)
    (hlast : all_outputs.getLast? = some outs)
    (hbin : aget outs i = some obin)
    (hid : aget obin line_id.toNat = none) :
    ext_result_step ignore_peaks (some i) all_outputs all_peak_outputs line_id line
      = .ok (all_outputs, all_peak_outputs) := by
  unfold ext_result_step
  rw [h0]
  dsimp only
  rw [hres]
  dsimp only
  cases hip : ignore_peaks with
  | true =>
    simp only [if_pos rfl]
    rw [hlast]
    dsimp only
    rw [hbin]
    dsimp only
    rw [hid]
    rfl
  | false =>
    simp only [Bool.false_eq_true, if_false]
    rcases hpl : parsePeakList line.tail with _ | pr
    · exact absurd hpl (hpk hip)
    · dsimp only
      rw [hlast]
      dsimp only
      rw [hbin]
      dsimp only
      rw [hid]
      rfl

/-- C3 witness: result id 99 is unknown in the TimeStep store and is
dropped without error. -/
theorem c3_unknown_result_id_dropped_witness :
    ext_result_step true (some "timestep") [[("timestep", [(7, [none])])]] [none]
      99 ["1.5\n"]
      = .ok ([[("timestep", [(7, [none])])]], [none]) :=
  c3_unknown_result_id_dropped true "timestep" [[("timestep", [(7, [none])])]] [none]
    [("timestep", [(7, [none])])] [(7, [none])] 99 ["1.5\n"] "1.5\n" ⟨15, -1⟩
    (by decide) (by decide) (by intro h; cases h) (by decide) (by decide) (by decide)

/-! ## C6: no interval reset on environment lines -/

/-- C6 counterexample: in `c6body` the second environment receives a
result record before any of its interval markers; the claim predicts
`InvalidLineSyntax`, but the parse fails with an uncaught `IndexError`
(the stale interval pointer from the first environment indexes a fresh
empty series). -/
theorem c6_counterexample_index_error :
    read_body c6body 6 hdrTS true bodyInit = .error .indexError ∧
    PErr.indexError ≠ PErr.invalidLineSyntax := by
  constructor
  · decide
  · decide

/-- C6 amended: an environment-marker line leaves the current-interval
pointer unchanged (it is *not* reset to undefined), and a result record
before any interval marker fails the parse not with `InvalidLineSyntax`
but with an uncaught lookup error: `KeyError` in the first environment
(the pointer is still unbound) and `IndexError` in a later environment
(the stale pointer indexes an empty fresh series). -/
theorem c6_no_reset_and_uncaught_lookup_errors :
    (∀ (highest : Int) (header : HeaderT) (ip : Bool) (s : BodyState)
       (raw : String) (s' : BodyState),
       isEnvLine highest raw = true →
       bodyLineStep highest header ip s raw = .next s' →
       s'.interval = s.interval) ∧
    (∀ (highest : Int) (header : HeaderT) (ip : Bool) (s : BodyState)
       (raw : String) (line_id : Int) (s0 : String) (res : Dec),
       pyInt ((pySplit raw).headD "") = some line_id → ¬ line_id ≤ highest →
       pyIx (pySplit raw).tail 0 = some s0 → pyFloat s0 = some res →
       (s.all_raw_data.getLast?).isSome = true → s.interval = none →
       bodyLineStep highest header ip s raw = .failed .keyError) ∧
    (∀ (highest : Int) (header : HeaderT) (ip : Bool) (s : BodyState)
       (raw : String) (line_id : Int) (s0 : String) (res : Dec)
       (i : String) (cur : RawEsoData) (obin : OutBin),
       pyInt ((pySplit raw).headD "") = some line_id → ¬ line_id ≤ highest →
       pyIx (pySplit raw).tail 0 = some s0 → pyFloat s0 = some res →
       s.all_raw_data.getLast? = some cur → s.interval = some i →
       aget cur.outputs i = some obin → aget obin line_id.toNat = some [] →
       bodyLineStep highest header ip s raw = .failed .indexError) := by
  refine ⟨?_, ?_, ?_⟩
  · intro highest header ip s raw s' henv hstep
    unfold isEnvLine at henv
    simp only [bodyLineStep] at hstep
    rcases hpi : pyInt ((pySplit raw).headD "") with _ | lid
    · rw [hpi] at henv
      exact absurd henv (by simp)
    · rw [hpi] at henv hstep
      dsimp only at henv hstep
      simp only [Bool.and_eq_true, decide_eq_true_eq] at henv
      rw [if_pos henv.1, if_pos henv.2] at hstep
      rcases h0 : pyIx (pySplit raw).tail 0 with _ | s0
      · rw [h0] at hstep
        cases hstep
      · rw [h0] at hstep
        dsimp only at hstep
        injection hstep with hstep
        rw [← hstep]
  · intro highest header ip s raw line_id s0 res hpi hgt h0 hres hsome hnone
    simp only [bodyLineStep]
    rw [hpi]
    dsimp only
    rw [if_neg hgt, h0]
    dsimp only
    rw [hres]
    dsimp only
    rcases hcur : s.all_raw_data.getLast? with _ | cur
    · rw [hcur] at hsome
      cases hsome
    · dsimp only
      rw [hnone]
  · intro highest header ip s raw line_id s0 res i cur obin hpi hgt h0 hres hcur hi hbin hl
    simp only [bodyLineStep]
    rw [hpi]
    dsimp only
    rw [if_neg hgt, h0]
    dsimp only
    rw [hres]
    dsimp only
    rw [hcur]
    dsimp only
    rw [hi]
    dsimp only
    rw [hbin]
    dsimp only
    rw [hl]
    simp

/-! ## C8: pruning twice is a no-op -/

theorem remove_duplicates_eq_foldDel (dups : List (Nat × Variable)) (h : HeaderT)
    (o : OutTable) (p : Option PeakTable) :
    remove_duplicates dups h o p = (foldDel dups h, foldDel dups o, p.map (foldDel dups)) := by
  induction dups generalizing h o p with
  | nil =>
    cases p <;> simp [remove_duplicates, foldDel]
  | cons d rest ih =>
    simp only [remove_duplicates, List.foldl_cons] at *
    rw [ih (delFromTable h d.2.table d.1) (delFromTable o d.2.table d.1)
      (p.map (fun pp => delFromTable pp d.2.table d.1))]
    simp only [foldDel, List.foldl_cons]
    cases p <;> simp [foldDel]

theorem aget2_delFromTable {δ : Type w} (m : List (String × List (Nat × δ)))
    (i0 : String) (id0 : Nat) (i : String) (id : Nat) :
    aget2 (delFromTable m i0 id0) i id
      = if i = i0 ∧ id = id0 then none else aget2 m i id := by
  unfold delFromTable
  rcases hb : aget m i0 with _ | bin
  · by_cases hc : i = i0 ∧ id = id0
    · rw [if_pos hc]
      unfold aget2
      rw [hc.1, hb]
      rfl
    · rw [if_neg hc]
  · by_cases hi : i = i0
    · subst hi
      unfold aget2
      rw [aget_aset_self, hb]
      simp only [Option.some_bind]
      by_cases hid : id = id0
      · subst hid
        simp
      · rw [if_neg (fun hc => hid hc.2)]
        exact aget_adel_ne _ _ _ hid
    · unfold aget2
      rw [aget_aset_ne _ _ _ _ hi]
      rw [if_neg (fun hc => hi hc.1)]

theorem aget2_foldDel {δ : Type w} (dups : List (Nat × Variable))
    (m : List (String × List (Nat × δ))) (i : String) (id : Nat) :
    aget2 (foldDel dups m) i id
      = if dups.any (fun dv => decide (dv.1 = id ∧ dv.2.table = i)) then none
        else aget2 m i id := by
  induction dups generalizing m with
  | nil => rfl
  | cons d rest ih =>
    simp only [foldDel, List.foldl_cons] at *
    rw [ih (delFromTable m d.2.table d.1)]
    rw [aget2_delFromTable]
    simp only [List.any_cons, Bool.or_eq_true, decide_eq_true_eq]
    by_cases hrest : rest.any (fun dv => decide (dv.1 = id ∧ dv.2.table = i)) = true
    · rw [if_pos hrest, if_pos (Or.inr hrest)]
    · simp only [hrest, if_false, Bool.false_eq_true, or_false]
      by_cases hd : d.1 = id ∧ d.2.table = i
      · simp [hd, hd.1, hd.2]
      · have : ¬ (i = d.2.table ∧ id = d.1) := by
          intro hc
          exact hd ⟨hc.2.symm, hc.1.symm⟩
        simp [this, hd]

theorem delFromTable_eq_self {δ : Type w} (m : List (String × List (Nat × δ)))
    (i : String) (id : Nat) (h : aget2 m i id = none) : delFromTable m i id = m := by
  unfold delFromTable
  rcases hb : aget m i with _ | bin
  · rfl
  · dsimp only
    unfold aget2 at h
    rw [hb] at h
    simp only [Option.some_bind] at h
    rw [adel_self_of_aget _ _ h]
    exact aset_self_of_aget _ _ _ hb

theorem foldDel_eq_self {δ : Type w} (dups : List (Nat × Variable))
    (m : List (String × List (Nat × δ)))
    (h : ∀ dv ∈ dups, aget2 m dv.2.table dv.1 = none) : foldDel dups m = m := by
  induction dups with
  | nil => rfl
  | cons d rest ih =>
    simp only [foldDel, List.foldl_cons]
    rw [delFromTable_eq_self _ _ _ (h d (List.mem_cons_self _ _))]
    exact ih (fun dv hdv => h dv (List.mem_cons_of_mem _ hdv))

theorem foldDel_twice {δ : Type w} (dups : List (Nat × Variable))
    (m : List (String × List (Nat × δ))) : foldDel dups (foldDel dups m) = foldDel dups m := by
  apply foldDel_eq_self
  intro dv hdv
  rw [aget2_foldDel]
  rw [if_pos]
  rw [List.any_eq_true]
  exact ⟨dv, hdv, by simp⟩

/-- C8: re-running `remove_duplicates` with the same duplicates map on
the already-pruned header, outputs and peak outputs raises no error
(deletion of an absent key is suppressed) and leaves all three maps
unchanged. -/
theorem c8_remove_duplicates_idempotent (dups : List (Nat × Variable)) (h : HeaderT)
    (o : OutTable) (p : Option PeakTable) :
    remove_duplicates dups (remove_duplicates dups h o p).1
      (remove_duplicates dups h o p).2.1 (remove_duplicates dups h o p).2.2
      = remove_duplicates dups h o p := by
  cases p with
  | none => simp [remove_duplicates_eq_foldDel, foldDel_twice]
  | some pp => simp [remove_duplicates_eq_foldDel, foldDel_twice]

/-! ## C6 witness -/

/-- C6 witness: the environment line `1,ENV2` preserves the stale
TimeStep pointer; the result `7,2.0` raises `KeyError` in a first
environment and `IndexError` against a stale pointer. -/
theorem c6_no_reset_and_uncaught_lookup_errors_witness :
    c6envStepState.interval = c9state.interval ∧
    bodyLineStep 6 hdrTS true c6stateFirst "7,2.0\n" = .failed .keyError ∧
    bodyLineStep 6 hdrTS true c9state "7,2.0\n" = .failed .indexError :=
  ⟨c6_no_reset_and_uncaught_lookup_errors.1 6 hdrTS true c9state "1,ENV2\n"
      c6envStepState (by decide) (by decide),
   c6_no_reset_and_uncaught_lookup_errors.2.1 6 hdrTS true c6stateFirst "7,2.0\n"
      7 "2.0\n" ⟨20, -1⟩ (by decide) (by decide) (by decide) (by decide)
      (by decide) rfl,
   c6_no_reset_and_uncaught_lookup_errors.2.2 6 hdrTS true c9state "7,2.0\n"
      7 "2.0\n" ⟨20, -1⟩ "timestep" (initRawEsoData "ENV1" hdrTS true)
      [(7, []), (8, [])] (by decide) (by decide) (by decide) (by decide)
      (by decide) rfl (by decide) (by decide)⟩

/-! ## C7: the Each Call rewrite -/

/-- C7: a dictionary line whose captured interval tag reads `Each Call`
is stored with the canonical lower-cased `timestep` tag and its type
prefixed by `"System - "`; consequently, over inputs carrying the
EnergyPlus interval tags, no header bin is keyed `each call`. -/
theorem c7_each_call_rewrite :
    (∀ (line : String) (g : HeaderGroups), matchHeaderLine line = some g →
       g.g6 = "Each Call" →
       process_header_line line = some
         ⟨digitsVal g.g1,
          (match g.g4 with
           | none => if pyContains g.g3 "Cumulative" then "Cumulative Meter" else "Meter"
           | some _ => g.g3),
          "System - " ++ g.g4.getD g.g3, g.g5, "timestep"⟩) ∧
    (∀ (lines : List String) (h0 res : HeaderT) (rest : List String),
       (∀ raw ∈ lines, ∀ g, matchHeaderLine raw = some g → g.g6 ∈ canonicalTags) →
       aget h0 "each call" = none →
       read_header lines h0 = .ok (res, rest) →
       aget res "each call" = none) := by
  have hts : lowerStr "TimeStep" = "timestep" := by decide
  constructor
  · intro line g hm hg6
    unfold process_header_line
    rw [hm, Option.map_some']
    dsimp only
    rw [if_pos hg6]
    rcases g4 : g.g4 with _ | t <;> simp [g4, hts]
  · intro lines
    induction lines with
    | nil =>
      intro h0 res rest _ h0free hok
      simp only [read_header] at hok
      cases hok
    | cons raw rest0 ih =>
      intro h0 res rest hall h0free hok
      simp only [read_header] at hok
      rcases hpl : process_header_line raw with _ | e
      · rw [hpl] at hok
        dsimp only at hok
        split at hok
        · injection hok with hok
          injection hok with h1 h2
          rw [← h1]
          exact h0free
        · split at hok <;> cases hok
      · rw [hpl] at hok
        dsimp only at hok
        have htag : e.table ≠ "each call" := by
          unfold process_header_line at hpl
          rcases hm : matchHeaderLine raw with _ | g
          · rw [hm] at hpl
            cases hpl
          · rw [hm, Option.map_some'] at hpl
            injection hpl with hpl
            have hmem := hall raw (List.mem_cons_self _ _) g hm
            have htab : e.table =
                (if g.g6 = "Each Call" then "timestep" else lowerStr g.g6) := by
              rw [← hpl]
              by_cases h6 : g.g6 = "Each Call"
              · simp [h6, hts]
              · simp [h6]
            rw [htab]
            simp only [canonicalTags, List.mem_cons, List.not_mem_nil, or_false] at hmem
            rcases hmem with h | h | h | h | h | h | h <;> rw [h] <;> decide
        exact ih (headerStep h0 e) res rest
          (fun r hr => hall r (List.mem_cons_of_mem _ hr))
          (by
            unfold headerStep
            rw [aget_aset_ne _ _ _ _ (Ne.symm htag)]
            exact h0free)
          hok

/-- C7 witness: the `Each Call` dictionary line is filed under
`timestep` with a `System - ` type prefix, and a header read over
canonical tags has no `each call` bin. -/
theorem c7_each_call_rewrite_witness :
    process_header_line "12,2,Some Key,Some Type [W] !Each Call\n" = some
      ⟨12, "Some Key", "System - Some Type", "W", "timestep"⟩ ∧
    aget ([("timestep", [(12, ⟨"timestep", "Some Key", "System - Some Type", "W"⟩)])] :
      HeaderT) "each call" = none := by
  constructor
  · exact c7_each_call_rewrite.1 "12,2,Some Key,Some Type [W] !Each Call\n"
      ⟨['1','2'], ['2'], "Some Key", some "Some Type", "W", "Each Call"⟩
      (by decide) rfl
  · exact c7_each_call_rewrite.2
      ["12,2,Some Key,Some Type [W] !Each Call\n", "End of Data Dictionary\n"] []
      [("timestep", [(12, ⟨"timestep", "Some Key", "System - Some Type", "W"⟩)])] []
      (by intro raw hraw g hg
          simp only [List.mem_cons, List.not_mem_nil, or_false] at hraw
          rcases hraw with h | h
          · subst h
            rw [show matchHeaderLine "12,2,Some Key,Some Type [W] !Each Call\n" = some
              ⟨['1','2'], ['2'], "Some Key", some "Some Type", "W", "Each Call"⟩ from by decide] at hg
            injection hg with hg
            rw [← hg]
            decide
          · subst h
            rw [show matchHeaderLine "End of Data Dictionary\n" = none from by decide] at hg
            cases hg)
      (by decide) (by decide)

/-! ## C4: duplicate pruning after index construction -/

theorem aget_of_mem_nodup {δ : Type w} [DecidableEq α] {m : List (α × δ)} {k : α} {v : δ}
    (hnd : (m.map Prod.fst).Nodup) (hmem : (k, v) ∈ m) : aget m k = some v := by
  induction m with
  | nil => cases hmem
  | cons p t ih =>
    obtain ⟨a, b⟩ := p
    simp only [List.map_cons, List.nodup_cons] at hnd
    rcases List.mem_cons.mp hmem with h | h
    · injection h with h1 h2
      subst h1
      subst h2
      simp [aget]
    · have hka : a ≠ k := by
        intro hx
        subst hx
        exact hnd.1 (List.mem_map.mpr ⟨(a, v), h, rfl⟩)
      simp only [aget, hka, if_false]
      exact ih hnd.2 h

theorem collectBin_subset (seen : List Variable) (l : List (Nat × Variable)) :
    ∀ e ∈ (collectBin seen l).2, e ∈ l := by
  induction l generalizing seen with
  | nil => intro e he; cases he
  | cons q t ih =>
    intro e he
    obtain ⟨id, v⟩ := q
    by_cases hv : v ∈ seen
    · simp only [collectBin, if_pos hv] at he
      rcases List.mem_cons.mp he with h | h
      · exact h ▸ List.mem_cons_self _ _
      · exact List.mem_cons_of_mem _ (ih seen e h)
    · simp only [collectBin, if_neg hv] at he
      exact List.mem_cons_of_mem _ (ih (v :: seen) e he)

theorem collectBin_seen_mem (seen : List Variable) (l : List (Nat × Variable))
    (v : Variable) (hv : v ∈ seen) :
    ∀ id, (id, v) ∈ l → (id, v) ∈ (collectBin seen l).2 := by
  induction l generalizing seen with
  | nil => intro id h; cases h
  | cons q t ih =>
    intro id hmem
    obtain ⟨id0, v0⟩ := q
    by_cases hv0 : v0 ∈ seen
    · simp only [collectBin, if_pos hv0]
      rcases List.mem_cons.mp hmem with h | h
      · rw [h]
        exact List.mem_cons_self _ _
      · exact List.mem_cons_of_mem _ (ih seen hv id h)
    · simp only [collectBin, if_neg hv0]
      rcases List.mem_cons.mp hmem with h | h
      · injection h with h1 h2
        subst h2
        exact absurd hv hv0
      · exact ih (v0 :: seen) (List.mem_cons_of_mem _ hv) id h

theorem collectBin_two (seen : List Variable) (l : List (Nat × Variable))
    (id1 id2 : Nat) (v : Variable) (h1 : (id1, v) ∈ l) (h2 : (id2, v) ∈ l)
    (hne : id1 ≠ id2) :
    (id1, v) ∈ (collectBin seen l).2 ∨ (id2, v) ∈ (collectBin seen l).2 := by
  induction l generalizing seen with
  | nil => cases h1
  | cons q t ih =>
    obtain ⟨id0, v0⟩ := q
    by_cases hv0 : v0 ∈ seen
    · simp only [collectBin, if_pos hv0]
      rcases List.mem_cons.mp h1 with ha | ha
      · exact Or.inl (ha ▸ List.mem_cons_self _ _)
      · rcases List.mem_cons.mp h2 with hb | hb
        · exact Or.inr (hb ▸ List.mem_cons_self _ _)
        · rcases ih seen ha hb with h | h
          · exact Or.inl (List.mem_cons_of_mem _ h)
          · exact Or.inr (List.mem_cons_of_mem _ h)
    · simp only [collectBin, if_neg hv0]
      rcases List.mem_cons.mp h1 with ha | ha
      · have ha1 : id1 = id0 := by injection ha
        have ha2 : v = v0 := by injection ha
        have h2t : (id2, v) ∈ t := by
          rcases List.mem_cons.mp h2 with hb | hb
          · have hb1 : id2 = id0 := by injection hb
            exact absurd (ha1.trans hb1.symm) hne
          · exact hb
        exact Or.inr (collectBin_seen_mem (v0 :: seen) t v
          (ha2 ▸ List.mem_cons_self _ _) id2 h2t)
      · rcases List.mem_cons.mp h2 with hb | hb
        · have hb2 : v = v0 := by injection hb
          exact Or.inl (collectBin_seen_mem (v0 :: seen) t v
            (hb2 ▸ List.mem_cons_self _ _) id1 ha)
        · exact ih (v0 :: seen) ha hb

theorem collectHeader_sub (seen : List Variable) (h : HeaderT) :
    ∀ e ∈ (collectHeader seen h).2, ∃ p ∈ h, e ∈ p.2 := by
  induction h generalizing seen with
  | nil => intro e he; cases he
  | cons q t ih =>
    intro e he
    simp only [collectHeader] at he
    rcases List.mem_append.mp he with h1 | h1
    · exact ⟨q, List.mem_cons_self _ _, collectBin_subset seen q.2 e h1⟩
    · obtain ⟨p, hp, hep⟩ := ih (collectBin seen q.2).1 e h1
      exact ⟨p, List.mem_cons_of_mem _ hp, hep⟩

theorem collectHeader_bin_sub (seen : List Variable) (h : HeaderT)
    (p : String × List (Nat × Variable)) (hp : p ∈ h) :
    ∃ seen', ∀ e ∈ (collectBin seen' p.2).2, e ∈ (collectHeader seen h).2 := by
  induction h generalizing seen with
  | nil => cases hp
  | cons q t ih =>
    rcases List.mem_cons.mp hp with hq | hq
    · refine ⟨seen, fun e he => ?_⟩
      simp only [collectHeader]
      exact List.mem_append.mpr (Or.inl (hq ▸ he))
    · obtain ⟨seen', hsub⟩ := ih (collectBin seen q.2).1 hq
      refine ⟨seen', fun e he => ?_⟩
      simp only [collectHeader]
      exact List.mem_append.mpr (Or.inr (hsub e he))

/-- The interval of a variable found in a well-formed header is its bin
key. -/
theorem WFHeader.table_of_aget2 {h : HeaderT} (hwf : WFHeader h) {i : String}
    {id : Nat} {v : Variable} (hv : aget2 h i id = some v) :
    v.table = i ∧ ∃ bin, aget h i = some bin ∧ (id, v) ∈ bin := by
  unfold aget2 at hv
  rcases hb : aget h i with _ | bin
  · rw [hb] at hv
    cases hv
  · rw [hb] at hv
    simp only [Option.some_bind] at hv
    have hmem : (id, v) ∈ bin := aget_mem hv
    have hbinh : (i, bin) ∈ h := aget_mem hb
    exact ⟨(hwf.2 (i, bin) hbinh).2 (id, v) hmem, bin, rfl, hmem⟩

/-- Membership in the duplicates map implies membership in the header
bin of the variable's own interval (for a well-formed header). -/
theorem mem_dups_binned {h : HeaderT} (hwf : WFHeader h) {id : Nat} {v : Variable}
    (hd : (id, v) ∈ collectDuplicates h) :
    ∃ bin, aget h v.table = some bin ∧ (id, v) ∈ bin := by
  obtain ⟨p, hp, hep⟩ := collectHeader_sub [] h (id, v) hd
  have htab : v.table = p.1 := (hwf.2 p hp).2 (id, v) hep
  have : aget h p.1 = some p.2 := by
    apply aget_of_mem_nodup hwf.1
    exact hp
  exact ⟨p.2, htab ▸ this, hep⟩

/-- C4: building the search index collects, per
`(interval, key, type, units)` tuple, every id but the first observed;
pruning deletes exactly those ids from the header, the outputs and the
peak outputs under the variable's interval, leaves the surviving entries
(and hence the lengths of surviving series) untouched, and afterwards no
two surviving header ids share a tuple. -/
theorem c4_index_prune_consistency (h : HeaderT) (o : OutTable) (p : Option PeakTable)
    (hwf : WFHeader h) :
    (∀ i1 id1 i2 id2 v,
       aget2 (remove_duplicates (collectDuplicates h) h o p).1 i1 id1 = some v →
       aget2 (remove_duplicates (collectDuplicates h) h o p).1 i2 id2 = some v →
       i1 = i2 ∧ id1 = id2) ∧
    (∀ dv ∈ collectDuplicates h,
       aget2 (remove_duplicates (collectDuplicates h) h o p).1 dv.2.table dv.1 = none ∧
       aget2 (remove_duplicates (collectDuplicates h) h o p).2.1 dv.2.table dv.1 = none ∧
       ∀ pp, (remove_duplicates (collectDuplicates h) h o p).2.2 = some pp →
         aget2 pp dv.2.table dv.1 = none) ∧
    (∀ i id v, aget2 (remove_duplicates (collectDuplicates h) h o p).1 i id = some v ↔
       (aget2 h i id = some v ∧ (id, v) ∉ collectDuplicates h)) ∧
    (∀ i id l, aget2 (remove_duplicates (collectDuplicates h) h o p).2.1 i id = some l →
       aget2 o i id = some l) := by
  rw [remove_duplicates_eq_foldDel]
  have hdel_none : ∀ (dv : Nat × Variable), dv ∈ collectDuplicates h →
      ∀ (δ : Type) (m : List (String × List (Nat × δ))),
        aget2 (foldDel (collectDuplicates h) m) dv.2.table dv.1 = none := by
    intro dv hdv δ m
    rw [aget2_foldDel, if_pos]
    rw [List.any_eq_true]
    exact ⟨dv, hdv, by simp⟩
  have hsurvive : ∀ (i : String) (id : Nat) (v : Variable),
      aget2 (foldDel (collectDuplicates h) h) i id = some v ↔
        (aget2 h i id = some v ∧ (id, v) ∉ collectDuplicates h) := by
    intro i id v
    rw [aget2_foldDel]
    constructor
    · intro hs
      split at hs
      · cases hs
      case isFalse hany =>
        refine ⟨hs, fun hdv => hany ?_⟩
        have htab : v.table = i := (hwf.table_of_aget2 hs).1
        rw [List.any_eq_true]
        exact ⟨(id, v), hdv, by simp [htab]⟩
    · intro ⟨hv, hnd⟩
      split
      case isTrue hany =>
        rw [List.any_eq_true] at hany
        obtain ⟨dv, hdv, hdec⟩ := hany
        simp only [decide_eq_true_eq] at hdec
        obtain ⟨hid, htab⟩ := hdec
        obtain ⟨id', v'⟩ := dv
        dsimp only at hid htab
        obtain ⟨bin', hbin', hmem'⟩ := mem_dups_binned hwf hdv
        obtain ⟨htabv, bin, hbin, hmem⟩ := hwf.table_of_aget2 hv
        rw [htab] at hbin'
        rw [hbin] at hbin'
        injection hbin' with hbin'
        subst hbin'
        have hnd2 : (bin.map Prod.fst).Nodup :=
          (hwf.2 (i, bin) (aget_mem hbin)).1
        rw [hid] at hmem'
        have hvv : aget bin id = some v' := aget_of_mem_nodup hnd2 hmem'
        rw [aget_of_mem_nodup hnd2 hmem] at hvv
        injection hvv with hvv
        rw [hid, ← hvv] at hdv
        exact absurd hdv hnd
      case isFalse => exact hv
  refine ⟨?_, ?_, hsurvive, ?_⟩
  · intro i1 id1 i2 id2 v hv1 hv2
    obtain ⟨ha1, hnd1⟩ := (hsurvive i1 id1 v).mp hv1
    obtain ⟨ha2, hnd2⟩ := (hsurvive i2 id2 v).mp hv2
    obtain ⟨ht1, bin1, hb1, hm1⟩ := hwf.table_of_aget2 ha1
    obtain ⟨ht2, bin2, hb2, hm2⟩ := hwf.table_of_aget2 ha2
    have hi : i1 = i2 := by rw [← ht1, ← ht2]
    subst hi
    refine ⟨rfl, ?_⟩
    rw [hb1] at hb2
    injection hb2 with hb2
    subst hb2
    by_contra hne
    obtain ⟨seen', hsub⟩ := collectHeader_bin_sub [] h (i1, bin1) (aget_mem hb1)
    rcases collectBin_two seen' bin1 id1 id2 v hm1 hm2 hne with hmem | hmem
    · exact hnd1 (hsub _ hmem)
    · exact hnd2 (hsub _ hmem)
  · intro dv hdv
    refine ⟨hdel_none dv hdv _ h, hdel_none dv hdv _ o, ?_⟩
    intro pp hpp
    cases p with
    | none => cases hpp
    | some pq =>
      simp only [Option.map_some'] at hpp
      injection hpp with hpp
      rw [← hpp]
      exact hdel_none dv hdv _ pq
  · intro i id l hl
    rw [aget2_foldDel] at hl
    split at hl
    · cases hl
    · exact hl

/-- C4 witness: scenario S6 — ids 10 and 11 share
`(daily, E, Temp, C)`; after the prune id 11 is gone from header and
outputs, id 10 survives with its series untouched. -/
theorem c4_index_prune_consistency_witness :
    (aget2 (remove_duplicates (collectDuplicates hdrDup) hdrDup outDup none).1
       "daily" 11 = none ∧
     aget2 (remove_duplicates (collectDuplicates hdrDup) hdrDup outDup none).2.1
       "daily" 11 = none) ∧
    aget2 (remove_duplicates (collectDuplicates hdrDup) hdrDup outDup none).1
       "daily" 10 = some ⟨"daily", "E", "Temp", "C"⟩ ∧
    aget2 outDup "daily" 10 = some [some ⟨1, 0⟩] := by
  have hmain := c4_index_prune_consistency hdrDup outDup none (by decide)
  refine ⟨?_, ?_, by decide⟩
  · have hd := hmain.2.1 (11, ⟨"daily", "E", "Temp", "C"⟩) (by decide)
    exact ⟨hd.1, hd.2.1⟩
  · exact (hmain.2.2.1 "daily" 10 ⟨"daily", "E", "Temp", "C"⟩).mpr
      ⟨by decide, by decide⟩

/-! ## C1: the series-length invariant -/

theorem aget_filter_key [DecidableEq α] (f : α → Bool) (m : List (α × β)) (k : α) :
    aget (m.filter (fun p => f p.1)) k = if f k = true then aget m k else none := by
  induction m with
  | nil => simp [aget]
  | cons p t ih =>
    obtain ⟨a, b⟩ := p
    by_cases hf : f a = true
    · by_cases hk : a = k
      · subst hk
        simp [List.filter_cons, hf, aget, ih]
      · simp [List.filter_cons, hf, aget, hk, ih]
    · by_cases hk : a = k
      · subst hk
        simp [List.filter_cons, hf, aget, ih]
      · simp [List.filter_cons, hf, aget, hk, ih]

theorem setLast_length {δ : Type w} (l : List δ) (x : δ) :
    (setLast l x).length = l.length := by
  simp [setLast]

theorem get?_some_lt {δ : Type w} {l : List δ} {n : Nat} {a : δ}
    (h : l.get? n = some a) : n < l.length := by
  by_contra hn
  rw [List.get?_eq_none.mpr (Nat.le_of_not_lt hn)] at h
  exact Option.noConfusion h

theorem get?_dropLast_of_lt {δ : Type w} {l : List δ} {n : Nat}
    (h : n + 1 < l.length) : l.dropLast.get? n = l.get? n := by
  rw [List.get?_eq_getElem?, List.get?_eq_getElem?, List.getElem?_dropLast]
  rw [if_pos (by omega)]

theorem setLastEnv_length {δ : Type w} (l : List δ) (x : δ) (h : l ≠ []) :
    (setLastEnv l x).length = l.length := by
  have h0 : 0 < l.length := List.length_pos.mpr h
  simp only [setLastEnv, List.length_append, List.length_dropLast, List.length_cons,
    List.length_nil]
  omega

theorem setLastEnv_get?_lt {δ : Type w} (l : List δ) (x : δ) {n : Nat}
    (h : n + 1 < l.length) : (setLastEnv l x).get? n = l.get? n := by
  rw [setLastEnv, List.get?_append (by simp only [List.length_dropLast]; omega)]
  exact get?_dropLast_of_lt h

theorem setLastEnv_get?_last {δ : Type w} (l : List δ) (x : δ) (h : l ≠ []) :
    (setLastEnv l x).get? (l.length - 1) = some x := by
  have h0 : 0 < l.length := List.length_pos.mpr h
  have hlen : l.dropLast.length = l.length - 1 := by simp
  rw [setLastEnv, ← hlen, List.get?_concat_length]

theorem setLastEnv_getLast? {δ : Type w} (l : List δ) (x : δ)
    (h : l.getLast? = some x) : setLastEnv l x = l := by
  have hne : l ≠ [] := by
    intro hnil
    rw [hnil] at h
    exact Option.noConfusion h
  have hx : l.getLast hne = x := by
    rw [List.getLast?_eq_getLast _ hne] at h
    injection h with h
  rw [setLastEnv, ← hx]
  exact List.dropLast_concat_getLast hne

theorem getLast?_eq_get?_pred {δ : Type w} (l : List δ) :
    l.getLast? = l.get? (l.length - 1) :=
  List.getLast?_eq_get? l

theorem init_dates (n : String) (hdr : HeaderT) (ip : Bool) (i : String) :
    aget (initRawEsoData n hdr ip).dates i
      = (aget hdr i).map (fun _ => ([] : List EsoTimestamp)) := by
  simp [initRawEsoData, aget_mapVals]

theorem init_outputs (n : String) (hdr : HeaderT) (ip : Bool) (i : String) :
    aget (initRawEsoData n hdr ip).outputs i
      = (aget hdr i).map (fun hbin => mapVals (fun _ _ => ([] : OutSeries)) hbin) := by
  simp [initRawEsoData, aget_mapVals]

theorem init_header (n : String) (hdr : HeaderT) (ip : Bool) :
    (initRawEsoData n hdr ip).header = hdr := rfl

theorem init_peaks_none (n : String) (hdr : HeaderT) :
    (initRawEsoData n hdr true).peak_outputs = none := rfl

theorem init_peaks_some (n : String) (hdr : HeaderT) :
    (initRawEsoData n hdr false).peak_outputs
      = some (mapVals (fun _ bin => mapVals (fun _ _ => ([] : PeakSeries)) bin)
          (hdr.filter (fun p => isDMARP p.1))) := rfl

theorem init_peak_isSome (n : String) (hdr : HeaderT) (ip : Bool) :
    (initRawEsoData n hdr ip).peak_outputs.isSome = !ip := by
  cases ip <;> rfl

theorem initRawEsoData_envLens (n : String) (hdr : HeaderT) (ip : Bool) :
    EnvLens (initRawEsoData n hdr ip) := by
  refine ⟨?_, ?_, ?_⟩
  · intro i ds hds obin hobin idn l hl
    rw [init_dates] at hds
    rw [init_outputs] at hobin
    rcases hh : aget hdr i with _ | hbin
    · rw [hh] at hds
      exact Option.noConfusion hds
    · rw [hh] at hds hobin
      simp only [Option.map_some'] at hds hobin
      injection hds with hds
      injection hobin with hobin
      subst hds
      subst hobin
      rw [aget_mapVals] at hl
      rcases hv : aget hbin idn with _ | v
      · rw [hv] at hl
        exact Option.noConfusion hl
      · rw [hv] at hl
        simp only [Option.map_some'] at hl
        injection hl with hl
        subst hl
        rfl
  · intro i hbin hhb
    rw [init_header] at hhb
    refine ⟨?_, ?_, ?_⟩
    · rw [init_dates, hhb]
      rfl
    · rw [init_outputs, hhb]
      rfl
    · intro idn v hv
      simp [aget2, init_outputs, hhb, aget_mapVals, hv]
  · intro pm hpm
    cases ip with
    | true =>
      rw [init_peaks_none] at hpm
      exact Option.noConfusion hpm
    | false =>
      rw [init_peaks_some] at hpm
      injection hpm with hpm
      subst hpm
      constructor
      · intro i pbin hpb
        rw [aget_mapVals, aget_filter_key] at hpb
        by_cases hdm : isDMARP i = true
        · rw [if_pos hdm] at hpb
          refine ⟨hdm, ?_⟩
          rcases hh : aget hdr i with _ | hbin
          · rw [hh] at hpb
            exact Option.noConfusion hpb
          · rw [hh] at hpb
            simp only [Option.map_some'] at hpb
            injection hpb with hpb
            subst hpb
            intro idn pl hpl ds hds
            rw [init_dates, hh] at hds
            simp only [Option.map_some'] at hds
            injection hds with hds
            subst hds
            rw [aget_mapVals] at hpl
            rcases hv : aget hbin idn with _ | v
            · rw [hv] at hpl
              exact Option.noConfusion hpl
            · rw [hv] at hpl
              simp only [Option.map_some'] at hpl
              injection hpl with hpl
              subst hpl
              rfl
        · rw [if_neg hdm] at hpb
          simp only [Option.map_none'] at hpb
          exact Option.noConfusion hpb
      · intro i hbin hhb hdm
        rw [init_header] at hhb
        constructor
        · rw [aget_mapVals, aget_filter_key, if_pos hdm, hhb]
          rfl
        · intro idn v hv
          simp [aget2, aget_mapVals, aget_filter_key, hdm, hhb, hv]

theorem process_sub_monthly_ok (lid : Int) (data : List String) (d : IntervalData)
    (h : process_sub_monthly_interval_line lid data = .ok d) :
    (lid = 2 ∧ (d.interval = H ∨ d.interval = TS)) ∨ (lid = 3 ∧ d.interval = D) := by
  simp only [process_sub_monthly_interval_line] at h
  by_cases h2 : lid = 2
  · rw [if_pos h2] at h
    left
    refine ⟨h2, ?_⟩
    repeat' split at h
    all_goals try exact Except.noConfusion h
    all_goals injection h with h
    all_goals subst h
    · exact Or.inl rfl
    · exact Or.inr rfl
  · rw [if_neg h2] at h
    by_cases h3 : lid = 3
    · rw [if_pos h3] at h
      right
      refine ⟨h3, ?_⟩
      repeat' split at h
      all_goals try exact Except.noConfusion h
      injection h with h
      subst h
      rfl
    · rw [if_neg h3] at h
      exact Except.noConfusion h

theorem process_monthly_plus_ok (lid : Int) (data : List String) (d : IntervalData)
    (h : process_monthly_plus_interval_line lid data = .ok d) :
    (lid = 4 ∧ d.interval = M) ∨ (lid = 5 ∧ d.interval = RP) ∨
      (lid = 6 ∧ d.interval = A) := by
  simp only [process_monthly_plus_interval_line] at h
  by_cases h4 : lid = 4
  · rw [if_pos h4] at h
    refine Or.inl ⟨h4, ?_⟩
    repeat' split at h
    all_goals try exact Except.noConfusion h
    injection h with h
    subst h
    rfl
  · rw [if_neg h4] at h
    by_cases h5 : lid = 5
    · rw [if_pos h5] at h
      refine Or.inr (Or.inl ⟨h5, ?_⟩)
      repeat' split at h
      all_goals try exact Except.noConfusion h
      injection h with h
      subst h
      rfl
    · rw [if_neg h5] at h
      by_cases h6 : lid = 6
      · rw [if_pos h6] at h
        injection h with h
        subst h
        exact Or.inr (Or.inr ⟨h6, rfl⟩)
      · rw [if_neg h6] at h
        exact Except.noConfusion h

theorem applyIntervalLine_ok (cur : RawEsoData) (lid : Int) (ip : Bool)
    (d : IntervalData) (cur' : RawEsoData)
    (h : applyIntervalLine cur lid ip d = .ok cur') :
    ∃ dl obin,
      aget cur.dates d.interval = some dl ∧
      aget cur.outputs d.interval = some obin ∧
      cur'.header = cur.header ∧
      cur'.dates = aset cur.dates d.interval (dl ++ [d.date]) ∧
      cur'.outputs
        = aset cur.outputs d.interval (mapVals (fun _ l => l ++ [none]) obin) ∧
      (¬ (¬ ip = true ∧ lid ≥ 3) → cur'.peak_outputs = cur.peak_outputs) ∧
      ((¬ ip = true ∧ lid ≥ 3) → ∃ pm pbin,
         cur.peak_outputs = some pm ∧ aget pm d.interval = some pbin ∧
         cur'.peak_outputs
           = some (aset pm d.interval (mapVals (fun _ l => l ++ [none]) pbin))) := by
  cases d with
  | subMonthly i0 dt0 day =>
    simp only [applyIntervalLine, IntervalData.interval, IntervalData.date] at h ⊢
    rcases hdw : aget cur.days_of_week i0 with _ | dwl
    · rw [hdw] at h
      exact Except.noConfusion h
    · rw [hdw] at h
      simp only [Except.bind] at h
      rcases hdl : aget cur.dates i0 with _ | dl
      · rw [hdl] at h
        exact Except.noConfusion h
      · rw [hdl] at h
        dsimp only at h
        rcases hob : aget cur.outputs i0 with _ | obin
        · rw [hob] at h
          exact Except.noConfusion h
        · rw [hob] at h
          dsimp only at h
          refine ⟨dl, obin, rfl, rfl, ?_⟩
          by_cases hc : ¬ ip = true ∧ lid ≥ 3
          · rw [if_pos hc] at h
            rcases hpo : cur.peak_outputs with _ | pm
            · rw [hpo] at h
              exact Except.noConfusion h
            · rw [hpo] at h
              dsimp only at h
              rcases hpb : aget pm i0 with _ | pbin
              · rw [hpb] at h
                exact Except.noConfusion h
              · rw [hpb] at h
                dsimp only at h
                injection h with h
                subst h
                exact ⟨rfl, rfl, rfl, fun hn => absurd hc hn,
                  fun _ => ⟨pm, pbin, rfl, hpb, rfl⟩⟩
          · rw [if_neg hc] at h
            injection h with h
            subst h
            exact ⟨rfl, rfl, rfl, fun _ => rfl, fun hy => absurd hy hc⟩
  | monthlyPlus i0 dt0 nd =>
    simp only [applyIntervalLine, IntervalData.interval, IntervalData.date] at h ⊢
    rcases hcd : aget cur.cumulative_days i0 with _ | cdl
    · rw [hcd] at h
      exact Except.noConfusion h
    · rw [hcd] at h
      simp only [Except.bind] at h
      rcases hdl : aget cur.dates i0 with _ | dl
      · rw [hdl] at h
        exact Except.noConfusion h
      · rw [hdl] at h
        dsimp only at h
        rcases hob : aget cur.outputs i0 with _ | obin
        · rw [hob] at h
          exact Except.noConfusion h
        · rw [hob] at h
          dsimp only at h
          refine ⟨dl, obin, rfl, rfl, ?_⟩
          by_cases hc : ¬ ip = true ∧ lid ≥ 3
          · rw [if_pos hc] at h
            rcases hpo : cur.peak_outputs with _ | pm
            · rw [hpo] at h
              exact Except.noConfusion h
            · rw [hpo] at h
              dsimp only at h
              rcases hpb : aget pm i0 with _ | pbin
              · rw [hpb] at h
                exact Except.noConfusion h
              · rw [hpb] at h
                dsimp only at h
                injection h with h
                subst h
                exact ⟨rfl, rfl, rfl, fun hn => absurd hc hn,
                  fun _ => ⟨pm, pbin, rfl, hpb, rfl⟩⟩
          · rw [if_neg hc] at h
            injection h with h
            subst h
            exact ⟨rfl, rfl, rfl, fun _ => rfl, fun hy => absurd hy hc⟩

theorem applyIntervalLine_envLens (cur cur' : RawEsoData) (lid : Int) (ip : Bool)
    (d : IntervalData)
    (hE : EnvLens cur) (hps : cur.peak_outputs.isSome = !ip)
    (hdi : ip = false → ¬ lid ≥ 3 → isDMARP d.interval = false)
    (h : applyIntervalLine cur lid ip d = .ok cur') :
    EnvLens cur' ∧ cur'.peak_outputs.isSome = !ip := by
  obtain ⟨dl, obin, hdl, hob, hhd, hdts, houts, hpk_no, hpk_yes⟩ :=
    applyIntervalLine_ok cur lid ip d cur' h
  obtain ⟨hE1, hE2, hE3⟩ := hE
  refine ⟨⟨?_, ?_, ?_⟩, ?_⟩
  · intro i ds hds obin2 hob2 idn l hl
    by_cases hii : i = d.interval
    · subst hii
      rw [hdts, aget_aset_self] at hds
      injection hds with hds
      rw [houts, aget_aset_self] at hob2
      injection hob2 with hob2
      subst hds
      subst hob2
      rw [aget_mapVals] at hl
      rcases hl0 : aget obin idn with _ | l0
      · rw [hl0] at hl
        exact Option.noConfusion hl
      · rw [hl0] at hl
        simp only [Option.map_some'] at hl
        injection hl with hl
        subst hl
        have hlen := hE1 d.interval dl hdl obin hob idn l0 hl0
        simp [hlen]
    · rw [hdts, aget_aset_ne _ _ _ _ hii] at hds
      rw [houts, aget_aset_ne _ _ _ _ hii] at hob2
      exact hE1 i ds hds obin2 hob2 idn l hl
  · intro i hbin hhb
    rw [hhd] at hhb
    obtain ⟨hds_s, hout_s, hids⟩ := hE2 i hbin hhb
    refine ⟨?_, ?_, ?_⟩
    · rw [hdts]
      by_cases hii : i = d.interval
      · subst hii
        rw [aget_aset_self]
        rfl
      · rw [aget_aset_ne _ _ _ _ hii]
        exact hds_s
    · rw [houts]
      by_cases hii : i = d.interval
      · subst hii
        rw [aget_aset_self]
        rfl
      · rw [aget_aset_ne _ _ _ _ hii]
        exact hout_s
    · intro idn v hv
      have hidv := hids idn v hv
      simp only [aget2] at hidv ⊢
      rw [houts]
      by_cases hii : i = d.interval
      · subst hii
        rw [aget_aset_self]
        rw [hob, Option.some_bind] at hidv
        rw [Option.some_bind, aget_mapVals]
        rcases hx : aget obin idn with _ | x
        · rw [hx] at hidv
          exact Bool.noConfusion hidv
        · rfl
      · rw [aget_aset_ne _ _ _ _ hii]
        exact hidv
  · intro pm' hpm'
    cases ip with
    | true =>
      have hno : ¬ (¬ (true : Bool) = true ∧ lid ≥ 3) := fun hc => hc.1 rfl
      rw [hpk_no hno] at hpm'
      rw [hpm'] at hps
      simp at hps
    | false =>
      have hips : cur.peak_outputs.isSome = true := by rw [hps]; rfl
      rcases hpo : cur.peak_outputs with _ | pm
      · rw [hpo] at hips
        exact Bool.noConfusion hips
      · obtain ⟨h3a, h3b⟩ := hE3 pm hpo
        by_cases hc : (¬ (false : Bool) = true ∧ lid ≥ 3)
        · obtain ⟨pm0, pbin, hpo0, hpb, hpk'⟩ := hpk_yes hc
          rw [hpo] at hpo0
          injection hpo0 with hpo0
          subst hpo0
          rw [hpk'] at hpm'
          injection hpm' with hpm'
          subst hpm'
          constructor
          · intro i pbin2 hpb2
            by_cases hii : i = d.interval
            · subst hii
              rw [aget_aset_self] at hpb2
              injection hpb2 with hpb2
              subst hpb2
              obtain ⟨hdm, hlen⟩ := h3a d.interval pbin hpb
              refine ⟨hdm, ?_⟩
              intro idn pl2 hpl2 ds hds
              rw [hdts, aget_aset_self] at hds
              injection hds with hds
              subst hds
              rw [aget_mapVals] at hpl2
              rcases hx : aget pbin idn with _ | pl
              · rw [hx] at hpl2
                exact Option.noConfusion hpl2
              · rw [hx] at hpl2
                simp only [Option.map_some'] at hpl2
                injection hpl2 with hpl2
                subst hpl2
                have hplen := hlen idn pl hx dl hdl
                simp [hplen]
            · rw [aget_aset_ne _ _ _ _ hii] at hpb2
              obtain ⟨hdm, hlen⟩ := h3a i pbin2 hpb2
              refine ⟨hdm, ?_⟩
              intro idn pl2 hpl2 ds hds
              rw [hdts, aget_aset_ne _ _ _ _ hii] at hds
              exact hlen idn pl2 hpl2 ds hds
          · intro i hbin hhb hdm
            rw [hhd] at hhb
            obtain ⟨hsome, hids⟩ := h3b i hbin hhb hdm
            constructor
            · by_cases hii : i = d.interval
              · subst hii
                rw [aget_aset_self]
                rfl
              · rw [aget_aset_ne _ _ _ _ hii]
                exact hsome
            · intro idn v hv
              have hidv := hids idn v hv
              simp only [aget2] at hidv ⊢
              by_cases hii : i = d.interval
              · subst hii
                rw [aget_aset_self]
                rw [hpb, Option.some_bind] at hidv
                rw [Option.some_bind, aget_mapVals]
                rcases hx : aget pbin idn with _ | x
                · rw [hx] at hidv
                  exact Bool.noConfusion hidv
                · rfl
              · rw [aget_aset_ne _ _ _ _ hii]
                exact hidv
        · rw [hpk_no hc, hpo] at hpm'
          injection hpm' with hpm'
          subst hpm'
          have hlt : ¬ lid ≥ 3 := fun hge => hc ⟨Bool.false_ne_true, hge⟩
          have hdm_false : isDMARP d.interval = false := hdi rfl hlt
          constructor
          · intro i pbin2 hpb2
            obtain ⟨hdm, hlen⟩ := h3a i pbin2 hpb2
            have hii : i ≠ d.interval := by
              intro hEq
              rw [hEq, hdm_false] at hdm
              exact Bool.noConfusion hdm
            refine ⟨hdm, ?_⟩
            intro idn pl2 hpl2 ds hds
            rw [hdts, aget_aset_ne _ _ _ _ hii] at hds
            exact hlen idn pl2 hpl2 ds hds
          · intro i hbin hhb hdm
            rw [hhd] at hhb
            exact h3b i hbin hhb hdm
  · by_cases hc : (¬ ip = true ∧ lid ≥ 3)
    · obtain ⟨pm, pbin, hpo, hpb, hpk'⟩ := hpk_yes hc
      rw [hpk']
      cases ip with
      | true => exact absurd rfl hc.1
      | false => rfl
    · rw [hpk_no hc]
      exact hps

theorem bodyLineStep_finished_eq (hi : Int) (hdr : HeaderT) (ip : Bool)
    (s s' : BodyState) (raw : String)
    (h : bodyLineStep hi hdr ip s raw = .finished s') : s' = s := by
  simp only [bodyLineStep] at h
  repeat' split at h
  all_goals first
    | exact StepOut.noConfusion h
    | (injection h with h; exact h.symm)

theorem bodyLineStep_next_cases (hi : Int) (hdr : HeaderT) (ip : Bool)
    (s s' : BodyState) (raw : String)
    (h : bodyLineStep hi hdr ip s raw = .next s') :
    (∃ s0, pyInt ((pySplit raw).headD "") = some 1 ∧ (1 : Int) ≤ hi ∧
       pyIx (pySplit raw).tail 0 = some s0 ∧
       s' = ⟨s.all_raw_data ++ [initRawEsoData (pyStrip s0) hdr ip], s.interval⟩) ∨
    (∃ lid d cur cur', pyInt ((pySplit raw).headD "") = some lid ∧ lid ≤ hi ∧
       ¬ lid = 1 ∧
       (if lid > 3 then process_monthly_plus_interval_line lid (pySplit raw).tail
        else process_sub_monthly_interval_line lid (pySplit raw).tail) = .ok d ∧
       s.all_raw_data.getLast? = some cur ∧
       applyIntervalLine cur lid ip d = .ok cur' ∧
       s' = ⟨setLastEnv s.all_raw_data cur', some d.interval⟩) ∨
    (∃ lid s0 res cur i obin l, pyInt ((pySplit raw).headD "") = some lid ∧
       ¬ lid ≤ hi ∧
       pyIx (pySplit raw).tail 0 = some s0 ∧ pyFloat s0 = some res ∧
       s.all_raw_data.getLast? = some cur ∧ s.interval = some i ∧
       aget cur.outputs i = some obin ∧ aget obin lid.toNat = some l ∧
       ¬ l.isEmpty = true ∧
       ((¬ (¬ ip = true ∧ (i = D ∨ i = M ∨ i = A ∨ i = RP)) ∧
          s' = ⟨setLastEnv s.all_raw_data
                 { cur with outputs :=
                     (aset cur.outputs i (aset obin lid.toNat (setLast l (some res)))) },
               s.interval⟩) ∨
        (∃ peak_res pm pbin pl, (¬ ip = true ∧ (i = D ∨ i = M ∨ i = A ∨ i = RP)) ∧
           parsePeakList (pySplit raw).tail.tail = some peak_res ∧
           cur.peak_outputs = some pm ∧ aget pm i = some pbin ∧
           aget pbin lid.toNat = some pl ∧ ¬ pl.isEmpty = true ∧
           s' = ⟨setLastEnv s.all_raw_data
                  { cur with
                      outputs :=
                        (aset cur.outputs i (aset obin lid.toNat (setLast l (some res)))),
                      peak_outputs :=
                        (some (aset pm i (aset pbin lid.toNat (setLast pl (some peak_res))))) },
                  s.interval⟩))) := by
  simp only [bodyLineStep] at h
  rcases hP : pyInt ((pySplit raw).headD "") with _ | lid
  · rw [hP] at h
    dsimp only at h
    split at h
    · exact StepOut.noConfusion h
    · split at h
      · exact StepOut.noConfusion h
      · exact StepOut.noConfusion h
  · rw [hP] at h
    dsimp only at h
    by_cases hle : lid ≤ hi
    · rw [if_pos hle] at h
      by_cases h1 : lid = 1
      · subst h1
        rw [if_pos rfl] at h
        rcases h0 : pyIx (pySplit raw).tail 0 with _ | s0
        · rw [h0] at h
          exact StepOut.noConfusion h
        · rw [h0] at h
          dsimp only at h
          injection h with h
          exact Or.inl ⟨s0, rfl, hle, rfl, h.symm⟩
      · rw [if_neg h1] at h
        rcases hpar : (if lid > 3
            then process_monthly_plus_interval_line lid (pySplit raw).tail
            else process_sub_monthly_interval_line lid (pySplit raw).tail)
            with e | d
        · rw [hpar] at h
          exact StepOut.noConfusion h
        · rw [hpar] at h
          dsimp only at h
          rcases hlast : s.all_raw_data.getLast? with _ | cur
          · rw [hlast] at h
            exact StepOut.noConfusion h
          · rw [hlast] at h
            dsimp only at h
            rcases happ : applyIntervalLine cur lid ip d with e | cur'
            · rw [happ] at h
              exact StepOut.noConfusion h
            · rw [happ] at h
              dsimp only at h
              injection h with h
              exact Or.inr (Or.inl ⟨lid, d, cur, cur', rfl, hle, h1, hpar, rfl,
                happ, h.symm⟩)
    · rw [if_neg hle] at h
      rcases h0 : pyIx (pySplit raw).tail 0 with _ | s0
      · rw [h0] at h
        exact StepOut.noConfusion h
      · rw [h0] at h
        dsimp only at h
        rcases hf : pyFloat s0 with _ | res
        · rw [hf] at h
          exact StepOut.noConfusion h
        · rw [hf] at h
          dsimp only at h
          rcases hlast : s.all_raw_data.getLast? with _ | cur
          · rw [hlast] at h
            exact StepOut.noConfusion h
          · rw [hlast] at h
            dsimp only at h
            rcases hintv : s.interval with _ | i
            · rw [hintv] at h
              exact StepOut.noConfusion h
            · rw [hintv] at h
              dsimp only at h
              rcases hob : aget cur.outputs i with _ | obin
              · rw [hob] at h
                exact StepOut.noConfusion h
              · rw [hob] at h
                dsimp only at h
                rcases hser : aget obin lid.toNat with _ | l
                · rw [hser] at h
                  exact StepOut.noConfusion h
                · rw [hser] at h
                  dsimp only at h
                  by_cases hemp : l.isEmpty = true
                  · rw [if_pos hemp] at h
                    exact StepOut.noConfusion h
                  · rw [if_neg hemp] at h
                    by_cases hpk : ¬ ip = true ∧ (i = D ∨ i = M ∨ i = A ∨ i = RP)
                    · rw [if_pos hpk] at h
                      rcases hplist : parsePeakList (pySplit raw).tail.tail
                          with _ | peak_res
                      · rw [hplist] at h
                        exact StepOut.noConfusion h
                      · rw [hplist] at h
                        dsimp only at h
                        rcases hpo : cur.peak_outputs with _ | pm
                        · rw [hpo] at h
                          exact StepOut.noConfusion h
                        · rw [hpo] at h
                          dsimp only at h
                          rcases hpb : aget pm i with _ | pbin
                          · rw [hpb] at h
                            exact StepOut.noConfusion h
                          · rw [hpb] at h
                            dsimp only at h
                            rcases hpl : aget pbin lid.toNat with _ | pl
                            · rw [hpl] at h
                              exact StepOut.noConfusion h
                            · rw [hpl] at h
                              dsimp only at h
                              by_cases hpe : pl.isEmpty = true
                              · rw [if_pos hpe] at h
                                exact StepOut.noConfusion h
                              · rw [if_neg hpe] at h
                                injection h with h
                                exact Or.inr (Or.inr ⟨lid, s0, res, cur, i, obin,
                                  l, rfl, hle, rfl, hf, rfl, rfl, hob, hser,
                                  hemp, Or.inr ⟨peak_res, pm, pbin, pl, hpk,
                                  rfl, hpo, hpb, hpl, hpe, h.symm⟩⟩)
                    · rw [if_neg hpk] at h
                      injection h with h
                      exact Or.inr (Or.inr ⟨lid, s0, res, cur, i, obin, l, rfl,
                        hle, rfl, hf, rfl, rfl, hob, hser, hemp,
                        Or.inl ⟨hpk, h.symm⟩⟩)

theorem result_update_envLens (cur : RawEsoData) (i : String) (idN : Nat)
    (obin : OutBin) (l : OutSeries) (res : Dec)
    (hE : EnvLens cur)
    (hob : aget cur.outputs i = some obin) (hser : aget obin idN = some l) :
    EnvLens { cur with outputs := aset cur.outputs i (aset obin idN (setLast l (some res))) } := by
  obtain ⟨hE1, hE2, hE3⟩ := hE
  refine ⟨?_, ?_, ?_⟩
  · intro i' ds hds obin2 hob2 idn l2 hl2
    by_cases hii : i' = i
    · subst hii
      rw [aget_aset_self] at hob2
      injection hob2 with hob2
      subst hob2
      by_cases hid : idn = idN
      · subst hid
        rw [aget_aset_self] at hl2
        injection hl2 with hl2
        subst hl2
        rw [setLast_length]
        exact hE1 i' ds hds obin hob idn l hser
      · rw [aget_aset_ne _ _ _ _ hid] at hl2
        exact hE1 i' ds hds obin hob idn l2 hl2
    · rw [aget_aset_ne _ _ _ _ hii] at hob2
      exact hE1 i' ds hds obin2 hob2 idn l2 hl2
  · intro i' hbin hhb
    obtain ⟨hds_s, hout_s, hids⟩ := hE2 i' hbin hhb
    refine ⟨hds_s, ?_, ?_⟩
    · by_cases hii : i' = i
      · subst hii
        rw [aget_aset_self]
        rfl
      · rw [aget_aset_ne _ _ _ _ hii]
        exact hout_s
    · intro idn v hv
      have hidv := hids idn v hv
      simp only [aget2] at hidv ⊢
      by_cases hii : i' = i
      · subst hii
        rw [aget_aset_self, Option.some_bind]
        rw [hob, Option.some_bind] at hidv
        by_cases hid : idn = idN
        · subst hid
          rw [aget_aset_self]
          rfl
        · rw [aget_aset_ne _ _ _ _ hid]
          exact hidv
      · rw [aget_aset_ne _ _ _ _ hii]
        exact hidv
  · intro pm hpm
    exact hE3 pm hpm

theorem peak_update_envLens (cur : RawEsoData) (i : String) (idN : Nat)
    (pm : PeakTable) (pbin : PeakBin) (pl : PeakSeries) (x : Option (List PyNum))
    (hE : EnvLens cur) (hpm : cur.peak_outputs = some pm)
    (hpb : aget pm i = some pbin) (hpl : aget pbin idN = some pl) :
    EnvLens { cur with peak_outputs := some (aset pm i (aset pbin idN (setLast pl x))) } := by
  obtain ⟨hE1, hE2, hE3⟩ := hE
  obtain ⟨h3a, h3b⟩ := hE3 pm hpm
  refine ⟨?_, ?_, ?_⟩
  · intro i' ds hds obin2 hob2 idn l2 hl2
    exact hE1 i' ds hds obin2 hob2 idn l2 hl2
  · intro i' hbin hhb
    exact hE2 i' hbin hhb
  · intro pm' hpm'
    injection hpm' with hpm'
    subst hpm'
    constructor
    · intro i' pbin2 hpb2
      by_cases hii : i' = i
      · subst hii
        rw [aget_aset_self] at hpb2
        injection hpb2 with hpb2
        subst hpb2
        obtain ⟨hdm, hlen⟩ := h3a i' pbin hpb
        refine ⟨hdm, ?_⟩
        intro idn pl2 hpl2 ds hds
        by_cases hid : idn = idN
        · subst hid
          rw [aget_aset_self] at hpl2
          injection hpl2 with hpl2
          subst hpl2
          rw [setLast_length]
          exact hlen idn pl hpl ds hds
        · rw [aget_aset_ne _ _ _ _ hid] at hpl2
          exact hlen idn pl2 hpl2 ds hds
      · rw [aget_aset_ne _ _ _ _ hii] at hpb2
        obtain ⟨hdm, hlen⟩ := h3a i' pbin2 hpb2
        exact ⟨hdm, hlen⟩
    · intro i' hbin hhb hdm
      obtain ⟨hsome, hids⟩ := h3b i' hbin hhb hdm
      constructor
      · by_cases hii : i' = i
        · subst hii
          rw [aget_aset_self]
          rfl
        · rw [aget_aset_ne _ _ _ _ hii]
          exact hsome
      · intro idn v hv
        have hidv := hids idn v hv
        simp only [aget2] at hidv ⊢
        by_cases hii : i' = i
        · subst hii
          rw [aget_aset_self, Option.some_bind]
          rw [hpb, Option.some_bind] at hidv
          by_cases hid : idn = idN
          · subst hid
            rw [aget_aset_self]
            rfl
          · rw [aget_aset_ne _ _ _ _ hid]
            exact hidv
        · rw [aget_aset_ne _ _ _ _ hii]
          exact hidv

theorem bodyLineStep_next_allLens (hi : Int) (hdr : HeaderT) (ip : Bool)
    (s s' : BodyState) (raw : String)
    (hA : AllLens ip s)
    (h : bodyLineStep hi hdr ip s raw = .next s') :
    AllLens ip s' := by
  rcases bodyLineStep_next_cases hi hdr ip s s' raw h with
      ⟨s0, hP, hle, h0, hs'⟩ |
      ⟨lid, d, cur, cur', hP, hle, h1, hpar, hlast, happ, hs'⟩ |
      ⟨lid, s0, res, cur, i, obin, l, hP, hle, h0, hf, hlast, hintv, hob, hser,
        hemp, hrest⟩
  · subst hs'
    intro e he
    rcases List.mem_append.mp he with he | he
    · exact hA e he
    · rw [List.mem_singleton.mp he]
      exact ⟨initRawEsoData_envLens _ _ _, init_peak_isSome _ _ _⟩
  · subst hs'
    intro e he
    simp only [setLastEnv] at he
    rcases List.mem_append.mp he with he | he
    · exact hA e (List.dropLast_subset _ he)
    · rw [List.mem_singleton.mp he]
      obtain ⟨hEc, hpsc⟩ := hA cur (List.mem_of_getLast?_eq_some hlast)
      have hdi : ip = false → ¬ lid ≥ 3 → isDMARP d.interval = false := by
        intro hip hlt
        by_cases hgt : lid > 3
        · exact absurd (le_of_lt hgt) hlt
        · rw [if_neg hgt] at hpar
          rcases process_sub_monthly_ok lid _ d hpar with ⟨h2, hint⟩ | ⟨h3, hint⟩
          · rcases hint with hH | hTS
            · rw [hH]
              decide
            · rw [hTS]
              decide
          · subst h3
            exact absurd (le_refl (3 : Int)) hlt
      exact applyIntervalLine_envLens cur cur' lid ip d hEc hpsc hdi happ
  · obtain ⟨hEc, hpsc⟩ := hA cur (List.mem_of_getLast?_eq_some hlast)
    have hE1 : EnvLens { cur with outputs := aset cur.outputs i (aset obin lid.toNat (setLast l (some res))) } :=
      result_update_envLens cur i lid.toNat obin l res hEc hob hser
    rcases hrest with ⟨hnot, hs'⟩ | ⟨peak_res, pm, pbin, pl, hpk, hplist, hpo, hpb, hpl, hpe, hs'⟩
    · subst hs'
      intro e he
      simp only [setLastEnv] at he
      rcases List.mem_append.mp he with he | he
      · exact hA e (List.dropLast_subset _ he)
      · rw [List.mem_singleton.mp he]
        exact ⟨hE1, hpsc⟩
    · subst hs'
      intro e he
      simp only [setLastEnv] at he
      rcases List.mem_append.mp he with he | he
      · exact hA e (List.dropLast_subset _ he)
      · rw [List.mem_singleton.mp he]
        have hip : ip = false := by
          cases ip with
          | false => rfl
          | true => exact absurd rfl hpk.1
        refine ⟨?_, by rw [hip]; rfl⟩
        exact peak_update_envLens
          { cur with outputs := aset cur.outputs i (aset obin lid.toNat (setLast l (some res))) }
          i lid.toNat pm pbin pl (some peak_res) hE1 hpo hpb hpl

theorem read_body_allLens (hi : Int) (hdr : HeaderT) (ip : Bool) :
    ∀ (lines : List String) (s : BodyState) (envs : List RawEsoData),
      AllLens ip s → read_body lines hi hdr ip s = .ok envs →
      ∀ e ∈ envs, EnvLens e ∧ e.peak_outputs.isSome = !ip := by
  intro lines
  induction lines with
  | nil =>
    intro s envs hA h
    simp only [read_body] at h
    exact Except.noConfusion h
  | cons raw rest ih =>
    intro s envs hA h
    simp only [read_body] at h
    rcases hstep : bodyLineStep hi hdr ip s raw with s1 | s1 | e
    · rw [hstep] at h
      dsimp only at h
      injection h with h
      subst h
      have hs1 : s1 = s := bodyLineStep_finished_eq hi hdr ip s s1 raw hstep
      subst hs1
      exact hA
    · rw [hstep] at h
      dsimp only at h
      exact ih _ _ (bodyLineStep_next_allLens hi hdr ip s s1 raw hA hstep) h
    · rw [hstep] at h
      exact Except.noConfusion h

/-- C1: at the end of a successful parse, every produced environment keeps
`len(outputs[i][v]) == len(dates[i])` for every interval `i` and every
variable id `v` declared in the environment's header for `i`; and when
peaks are collected (`ignore_peaks` false) the same identity holds for the
peak series of the D/M/A/RP intervals. -/
theorem c1_series_length_invariant (lines : List String) (hi : Int)
    (hdr : HeaderT) (ip : Bool) (envs : List RawEsoData)
    (hok : read_body lines hi hdr ip bodyInit = .ok envs) :
    ∀ e ∈ envs,
      (∀ i hbin, aget e.header i = some hbin →
        ∀ idn v, aget hbin idn = some v →
          ∃ ds l, aget e.dates i = some ds ∧ aget2 e.outputs i idn = some l ∧
            l.length = ds.length) ∧
      (ip = false →
        ∀ i hbin, aget e.header i = some hbin → isDMARP i = true →
          ∀ idn v, aget hbin idn = some v →
            ∃ pm ds pl, e.peak_outputs = some pm ∧ aget e.dates i = some ds ∧
              aget2 pm i idn = some pl ∧ pl.length = ds.length) := by
  have hA0 : AllLens ip bodyInit := by
    intro e he
    exact absurd he (List.not_mem_nil e)
  have hAll := read_body_allLens hi hdr ip lines bodyInit envs hA0 hok
  intro e he
  obtain ⟨hE, hps⟩ := hAll e he
  obtain ⟨hE1, hE2, hE3⟩ := hE
  constructor
  · intro i hbin hhb idn v hv
    obtain ⟨hds_s, hout_s, hids⟩ := hE2 i hbin hhb
    rcases hds : aget e.dates i with _ | ds
    · rw [hds] at hds_s
      exact Bool.noConfusion hds_s
    · rcases hob : aget e.outputs i with _ | obin
      · rw [hob] at hout_s
        exact Bool.noConfusion hout_s
      · have hidv := hids idn v hv
        simp only [aget2, hob, Option.some_bind] at hidv
        rcases hl : aget obin idn with _ | l
        · rw [hl] at hidv
          exact Bool.noConfusion hidv
        · refine ⟨ds, l, rfl, ?_, ?_⟩
          · simp only [aget2, hob, Option.some_bind]
            exact hl
          · exact hE1 i ds hds obin hob idn l hl
  · intro hip i hbin hhb hdm idn v hv
    have hpsome : e.peak_outputs.isSome = true := by
      rw [hps, hip]
      rfl
    rcases hpm : e.peak_outputs with _ | pm
    · rw [hpm] at hpsome
      exact Bool.noConfusion hpsome
    · obtain ⟨h3a, h3b⟩ := hE3 pm hpm
      obtain ⟨hpm_s, hids⟩ := h3b i hbin hhb hdm
      rcases hpb : aget pm i with _ | pbin
      · rw [hpb] at hpm_s
        exact Bool.noConfusion hpm_s
      · have hidv := hids idn v hv
        simp only [aget2, hpb, Option.some_bind] at hidv
        rcases hpl : aget pbin idn with _ | pl
        · rw [hpl] at hidv
          exact Bool.noConfusion hidv
        · obtain ⟨hds_s, hout_s2, hids2⟩ := hE2 i hbin hhb
          rcases hds : aget e.dates i with _ | ds
          · rw [hds] at hds_s
            exact Bool.noConfusion hds_s
          · refine ⟨pm, ds, pl, rfl, rfl, ?_, ?_⟩
            · simp only [aget2, hpb, Option.some_bind]
              exact hpl
            · exact (h3a i pbin hpb).2 idn pl hpl ds hds

/-- C1 witness: the daily run with peaks enabled produces one environment,
and the invariant theorem applies to its parse result. -/
theorem c1_series_length_invariant_witness :
    read_body dailyBody 6 hdrD false bodyInit = .ok dailyEnvList ∧
    (∀ e ∈ dailyEnvList,
      (∀ i hbin, aget e.header i = some hbin →
        ∀ idn v, aget hbin idn = some v →
          ∃ ds l, aget e.dates i = some ds ∧ aget2 e.outputs i idn = some l ∧
            l.length = ds.length) ∧
      (false = false →
        ∀ i hbin, aget e.header i = some hbin → isDMARP i = true →
          ∀ idn v, aget hbin idn = some v →
            ∃ pm ds pl, e.peak_outputs = some pm ∧ aget e.dates i = some ds ∧
              aget2 pm i idn = some pl ∧ pl.length = ds.length)) :=
  ⟨by decide, c1_series_length_invariant dailyBody 6 hdrD false dailyEnvList (by decide)⟩

/-! ## C2: slot-level characterization of the sparse series -/

theorem specLast_append (tr : List TraceRec) (r : TraceRec) (i : String) (v k : Nat) :
    specLast (tr ++ [r]) i v k
      = if recMatches i v k r = true then some r.value else specLast tr i v k := by
  simp only [specLast, List.filter_append]
  by_cases hm : recMatches i v k r = true
  · rw [if_pos hm]
    simp [List.filter_cons, hm, List.getLast?_concat]
  · rw [if_neg hm]
    simp [List.filter_cons, hm]

theorem specLast_none (tr : List TraceRec) (i : String) (v k : Nat)
    (h : ∀ r ∈ tr, ¬ recMatches i v k r = true) :
    specLast tr i v k = none := by
  simp only [specLast]
  rw [List.filter_eq_nil_iff.mpr h]
  rfl

theorem read_bodyT_erase (hi : Int) (hdr : HeaderT) (ip : Bool) :
    ∀ (lines : List String) (ts : TBodyState),
      (read_bodyT lines hi hdr ip ts).map Prod.fst = read_body lines hi hdr ip ts.base := by
  intro lines
  induction lines with
  | nil =>
    intro ts
    rfl
  | cons raw rest ih =>
    intro ts
    simp only [read_bodyT, read_body, bodyLineStepT]
    rcases hstep : bodyLineStep hi hdr ip ts.base raw with s1 | s1 | e
    · rfl
    · dsimp only
      by_cases hEnvL : isEnvLine hi raw = true
      · rw [if_pos hEnvL]
        exact ih ⟨s1, ts.traces ++ [[]]⟩
      · rw [if_neg hEnvL]
        rcases hR : resultRec hi ts.base raw with _ | r
        · exact ih ⟨s1, ts.traces⟩
        · exact ih ⟨s1, setLastEnv ts.traces ((ts.traces.getLast?.getD []) ++ [r])⟩
    · rfl

theorem read_bodyT_ok_of (lines : List String) (hi : Int) (hdr : HeaderT)
    (ip : Bool) (envs : List RawEsoData)
    (h : read_body lines hi hdr ip bodyInit = .ok envs) :
    ∃ trs, read_bodyT lines hi hdr ip tBodyInit = .ok (envs, trs) := by
  have he : (read_bodyT lines hi hdr ip tBodyInit).map Prod.fst = .ok envs := by
    rw [read_bodyT_erase hi hdr ip lines tBodyInit]
    exact h
  rcases hT : read_bodyT lines hi hdr ip tBodyInit with e | p
  · rw [hT] at he
    simp only [Except.map] at he
    exact Except.noConfusion he
  · obtain ⟨a, trs⟩ := p
    rw [hT] at he
    simp only [Except.map] at he
    injection he with he
    refine ⟨trs, ?_⟩
    rw [he]

theorem traceInv_append (ts : TBodyState) (hI : TraceInv ts) (name : String)
    (hdr : HeaderT) (ip : Bool) (intv : Option String) :
    TraceInv ⟨⟨ts.base.all_raw_data ++ [initRawEsoData name hdr ip], intv⟩,
              ts.traces ++ [[]]⟩ := by
  obtain ⟨hlen, hinv⟩ := hI
  constructor
  · simp [hlen]
  · intro eIdx env tr henv htr
    by_cases hlt : eIdx < ts.base.all_raw_data.length
    · rw [List.get?_append hlt] at henv
      rw [List.get?_append (by rw [hlen]; exact hlt)] at htr
      exact hinv eIdx env tr henv htr
    · have hlt2 : eIdx < ts.base.all_raw_data.length + 1 := by
        have := get?_some_lt henv
        simpa using this
      have hEq : eIdx = ts.base.all_raw_data.length := by omega
      subst hEq
      rw [List.get?_concat_length] at henv
      injection henv with henv
      have htr2 : (ts.traces ++ [[]]).get? ts.traces.length = some tr := by
        rw [hlen]
        exact htr
      rw [List.get?_concat_length] at htr2
      injection htr2 with htr2
      constructor
      · intro r hr
        rw [← htr2] at hr
        exact absurd hr (List.not_mem_nil r)
      · intro i ds obin hds hob idn l hl
        rw [← henv] at hds hob
        rw [init_dates] at hds
        rw [init_outputs] at hob
        rcases hh : aget hdr i with _ | hbin
        · rw [hh] at hds
          exact Option.noConfusion hds
        · rw [hh] at hds hob
          simp only [Option.map_some'] at hds hob
          injection hds with hds
          injection hob with hob
          subst hds
          subst hob
          rw [aget_mapVals] at hl
          rcases hx : aget hbin idn with _ | v
          · rw [hx] at hl
            exact Option.noConfusion hl
          · rw [hx] at hl
            simp only [Option.map_some'] at hl
            injection hl with hl
            subst hl
            exact ⟨rfl, fun k hk => absurd hk (Nat.not_lt_zero k)⟩

theorem traceInv_update_last (ts : TBodyState) (hI : TraceInv ts)
    (cur : RawEsoData) (tr0 : List TraceRec)
    (hcur : ts.base.all_raw_data.getLast? = some cur)
    (htr0 : ts.traces.getLast? = some tr0)
    (env' : RawEsoData) (tr' : List TraceRec) (intv : Option String)
    (hnew :
      (∀ r ∈ tr', ∃ ds, aget env'.dates r.interval = some ds ∧ r.step < ds.length) ∧
      (∀ i ds obin, aget env'.dates i = some ds → aget env'.outputs i = some obin →
         ∀ idn l, aget obin idn = some l →
           l.length = ds.length ∧
           ∀ k, k < ds.length → l.get? k = some (specLast tr' i idn k))) :
    TraceInv ⟨⟨setLastEnv ts.base.all_raw_data env', intv⟩,
              setLastEnv ts.traces tr'⟩ := by
  obtain ⟨hlen, hinv⟩ := hI
  have hne : ts.base.all_raw_data ≠ [] := by
    intro hnil
    rw [hnil] at hcur
    exact Option.noConfusion hcur
  have htne : ts.traces ≠ [] := by
    intro hnil
    rw [hnil] at htr0
    exact Option.noConfusion htr0
  constructor
  · rw [setLastEnv_length _ _ htne, setLastEnv_length _ _ hne, hlen]
  · intro eIdx env tr henv htr
    have hlt : eIdx < ts.base.all_raw_data.length := by
      have := get?_some_lt henv
      rwa [setLastEnv_length _ _ hne] at this
    by_cases hlast_i : eIdx = ts.base.all_raw_data.length - 1
    · subst hlast_i
      rw [setLastEnv_get?_last _ _ hne] at henv
      injection henv with henv
      have htr2 : (setLastEnv ts.traces tr').get? (ts.traces.length - 1) = some tr := by
        rw [hlen]
        exact htr
      rw [setLastEnv_get?_last _ _ htne] at htr2
      injection htr2 with htr2
      rw [← henv, ← htr2]
      exact hnew
    · have hlt2 : eIdx + 1 < ts.base.all_raw_data.length := by omega
      rw [setLastEnv_get?_lt _ _ hlt2] at henv
      have htr2 : ts.traces.get? eIdx = some tr := by
        have h3 : eIdx + 1 < ts.traces.length := by
          rw [hlen]
          omega
        rw [setLastEnv_get?_lt _ _ h3] at htr
        exact htr
      exact hinv eIdx env tr henv htr2

theorem interval_update_slots (cur cur' : RawEsoData) (lid : Int) (ip : Bool)
    (d : IntervalData) (tr0 : List TraceRec)
    (happ : applyIntervalLine cur lid ip d = .ok cur')
    (olda : ∀ r ∈ tr0, ∃ ds, aget cur.dates r.interval = some ds ∧ r.step < ds.length)
    (oldb : ∀ i ds obin, aget cur.dates i = some ds → aget cur.outputs i = some obin →
       ∀ idn l, aget obin idn = some l →
         l.length = ds.length ∧
         ∀ k, k < ds.length → l.get? k = some (specLast tr0 i idn k)) :
    (∀ r ∈ tr0, ∃ ds, aget cur'.dates r.interval = some ds ∧ r.step < ds.length) ∧
    (∀ i ds obin, aget cur'.dates i = some ds → aget cur'.outputs i = some obin →
       ∀ idn l, aget obin idn = some l →
         l.length = ds.length ∧
         ∀ k, k < ds.length → l.get? k = some (specLast tr0 i idn k)) := by
  obtain ⟨dl, obin0, hdl, hob0, hhd, hdts, houts, hpk_no, hpk_yes⟩ :=
    applyIntervalLine_ok cur lid ip d cur' happ
  constructor
  · intro r hr
    obtain ⟨ds0, hds0, hstep⟩ := olda r hr
    by_cases hii : r.interval = d.interval
    · refine ⟨dl ++ [d.date], ?_, ?_⟩
      · rw [hdts, hii, aget_aset_self]
      · rw [hii, hdl] at hds0
        injection hds0 with hds0
        subst hds0
        simp only [List.length_append, List.length_cons, List.length_nil]
        omega
    · refine ⟨ds0, ?_, hstep⟩
      rw [hdts, aget_aset_ne _ _ _ _ hii]
      exact hds0
  · intro i ds obin hds hob idn l hl
    by_cases hii : i = d.interval
    · subst hii
      rw [hdts, aget_aset_self] at hds
      injection hds with hds
      rw [houts, aget_aset_self] at hob
      injection hob with hob
      subst hds
      subst hob
      rw [aget_mapVals] at hl
      rcases hx : aget obin0 idn with _ | l0
      · rw [hx] at hl
        exact Option.noConfusion hl
      · rw [hx] at hl
        simp only [Option.map_some'] at hl
        injection hl with hl
        subst hl
        obtain ⟨hlen0, hslots0⟩ := oldb d.interval dl obin0 hdl hob0 idn l0 hx
        constructor
        · simp [hlen0]
        · intro k hk
          have hk1 : k < dl.length + 1 := by simpa using hk
          by_cases hkl : k < dl.length
          · rw [List.get?_append (by rw [hlen0]; exact hkl)]
            exact hslots0 k hkl
          · have hkEq : k = dl.length := by omega
            subst hkEq
            have hcc : (l0 ++ [(none : Option Dec)]).get? l0.length = some none :=
              List.get?_concat_length l0 none
            rw [hlen0] at hcc
            rw [hcc]
            have hnone : specLast tr0 d.interval idn dl.length = none := by
              apply specLast_none
              intro r hr hm
              obtain ⟨ds0, hds0, hstep⟩ := olda r hr
              simp only [recMatches, Bool.and_eq_true, decide_eq_true_eq] at hm
              obtain ⟨⟨hri, hrid⟩, hrstep⟩ := hm
              rw [hri, hdl] at hds0
              injection hds0 with hds0
              subst hds0
              omega
            rw [hnone]
    · rw [hdts, aget_aset_ne _ _ _ _ hii] at hds
      rw [houts, aget_aset_ne _ _ _ _ hii] at hob
      exact oldb i ds obin hds hob idn l hl

theorem result_update_slots (cur : RawEsoData) (i : String) (idN : Nat)
    (obin : OutBin) (l : OutSeries) (res : Dec) (ds0 : List EsoTimestamp)
    (tr0 : List TraceRec)
    (hds0 : aget cur.dates i = some ds0)
    (hob : aget cur.outputs i = some obin)
    (hser : aget obin idN = some l)
    (hpos : 0 < l.length)
    (olda : ∀ r ∈ tr0, ∃ ds, aget cur.dates r.interval = some ds ∧ r.step < ds.length)
    (oldb : ∀ i2 ds obin2, aget cur.dates i2 = some ds → aget cur.outputs i2 = some obin2 →
       ∀ idn li, aget obin2 idn = some li →
         li.length = ds.length ∧
         ∀ k, k < ds.length → li.get? k = some (specLast tr0 i2 idn k)) :
    (∀ r ∈ tr0 ++ [(⟨i, ds0.length - 1, idN, res⟩ : TraceRec)],
       ∃ ds, aget cur.dates r.interval = some ds ∧ r.step < ds.length) ∧
    (∀ i2 ds obin2, aget cur.dates i2 = some ds →
       aget (aset cur.outputs i (aset obin idN (setLast l (some res)))) i2 = some obin2 →
       ∀ idn li, aget obin2 idn = some li →
         li.length = ds.length ∧
         ∀ k, k < ds.length →
           li.get? k
             = some (specLast (tr0 ++ [(⟨i, ds0.length - 1, idN, res⟩ : TraceRec)]) i2 idn k)) := by
  have hlds : l.length = ds0.length := (oldb i ds0 obin hds0 hob idN l hser).1
  have hds_pos : 0 < ds0.length := by omega
  constructor
  · intro r hr
    rcases List.mem_append.mp hr with hr | hr
    · exact olda r hr
    · rw [List.mem_singleton.mp hr]
      exact ⟨ds0, hds0, Nat.sub_lt hds_pos Nat.one_pos⟩
  · intro i2 ds obin2 hds hob2 idn li hli
    by_cases hii : i2 = i
    · subst hii
      rw [hds0] at hds
      injection hds with hds
      subst hds
      rw [aget_aset_self] at hob2
      injection hob2 with hob2
      subst hob2
      by_cases hid : idn = idN
      · subst hid
        rw [aget_aset_self] at hli
        injection hli with hli
        subst hli
        constructor
        · rw [setLast_length]
          exact hlds
        · intro k hk
          simp only [setLast]
          rw [hlds]
          by_cases hkl : k = ds0.length - 1
          · subst hkl
            rw [List.get?_set_eq_of_lt _ (by omega)]
            rw [specLast_append]
            rw [if_pos (by simp [recMatches])]
          · rw [List.get?_set_ne _ _ (by omega)]
            rw [specLast_append, if_neg]
            · exact (oldb i2 ds0 obin hds0 hob idn l hser).2 k hk
            · intro hm
              simp only [recMatches, Bool.and_eq_true, decide_eq_true_eq] at hm
              exact hkl hm.2.symm
      · rw [aget_aset_ne _ _ _ _ hid] at hli
        obtain ⟨hlen1, hslots1⟩ := oldb i2 ds0 obin hds0 hob idn li hli
        refine ⟨hlen1, ?_⟩
        intro k hk
        rw [specLast_append, if_neg]
        · exact hslots1 k hk
        · intro hm
          simp only [recMatches, Bool.and_eq_true, decide_eq_true_eq] at hm
          exact hid hm.1.2.symm
    · rw [aget_aset_ne _ _ _ _ hii] at hob2
      obtain ⟨hlen1, hslots1⟩ := oldb i2 ds obin2 hds hob2 idn li hli
      refine ⟨hlen1, ?_⟩
      intro k hk
      rw [specLast_append, if_neg]
      · exact hslots1 k hk
      · intro hm
        simp only [recMatches, Bool.and_eq_true, decide_eq_true_eq] at hm
        exact hii hm.1.1.symm

theorem result_update_slots_nodate (cur : RawEsoData) (i : String) (idN : Nat)
    (obin : OutBin) (l : OutSeries) (res : Dec)
    (tr0 : List TraceRec)
    (hds0 : aget cur.dates i = none)
    (oldb : ∀ i2 ds obin2, aget cur.dates i2 = some ds → aget cur.outputs i2 = some obin2 →
       ∀ idn li, aget obin2 idn = some li →
         li.length = ds.length ∧
         ∀ k, k < ds.length → li.get? k = some (specLast tr0 i2 idn k)) :
    ∀ i2 ds obin2, aget cur.dates i2 = some ds →
       aget (aset cur.outputs i (aset obin idN (setLast l (some res)))) i2 = some obin2 →
       ∀ idn li, aget obin2 idn = some li →
         li.length = ds.length ∧
         ∀ k, k < ds.length → li.get? k = some (specLast tr0 i2 idn k) := by
  intro i2 ds obin2 hds hob2 idn li hli
  by_cases hii : i2 = i
  · subst hii
    rw [hds0] at hds
    exact Option.noConfusion hds
  · rw [aget_aset_ne _ _ _ _ hii] at hob2
    exact oldb i2 ds obin2 hds hob2 idn li hli

theorem bodyLineStepT_finished_eq (hi : Int) (hdr : HeaderT) (ip : Bool)
    (ts ts1 : TBodyState) (raw : String)
    (h : bodyLineStepT hi hdr ip ts raw = .finished ts1) : ts1 = ts := by
  simp only [bodyLineStepT] at h
  rcases hstep : bodyLineStep hi hdr ip ts.base raw with s1 | s1 | e
  · rw [hstep] at h
    dsimp only at h
    injection h with h
    have hs1 : s1 = ts.base := bodyLineStep_finished_eq hi hdr ip ts.base s1 raw hstep
    rw [← h, hs1]
  · rw [hstep] at h
    dsimp only at h
    by_cases hEnvL : isEnvLine hi raw = true
    · rw [if_pos hEnvL] at h
      exact TStepOut.noConfusion h
    · rw [if_neg hEnvL] at h
      rcases hR : resultRec hi ts.base raw with _ | r
      · rw [hR] at h
        exact TStepOut.noConfusion h
      · rw [hR] at h
        exact TStepOut.noConfusion h
  · rw [hstep] at h
    exact TStepOut.noConfusion h

theorem bodyLineStepT_traceInv (hi : Int) (hdr : HeaderT) (ip : Bool)
    (ts ts' : TBodyState) (raw : String)
    (hI : TraceInv ts)
    (h : bodyLineStepT hi hdr ip ts raw = .next ts') :
    TraceInv ts' := by
  simp only [bodyLineStepT] at h
  rcases hstep : bodyLineStep hi hdr ip ts.base raw with s1 | s1 | e
  · rw [hstep] at h
    dsimp only at h
    exact TStepOut.noConfusion h
  · rw [hstep] at h
    dsimp only at h
    rcases bodyLineStep_next_cases hi hdr ip ts.base s1 raw hstep with
        ⟨s0, hP, hle, h0, hs1⟩ |
        ⟨lid, d, cur, cur', hP, hle, h1, hpar, hlast, happ, hs1⟩ |
        ⟨lid, s0, res, cur, i, obin, l, hP, hle, h0, hf, hlast, hintv, hob, hser,
          hemp, hrest⟩
    · have hEnvL : isEnvLine hi raw = true := by
        simp only [isEnvLine, hP]
        simp [hle]
      rw [if_pos hEnvL] at h
      injection h with h
      subst h
      subst hs1
      exact traceInv_append ts hI (pyStrip s0) hdr ip ts.base.interval
    · have hEnvF : ¬ isEnvLine hi raw = true := by
        simp only [isEnvLine, hP]
        simp [h1]
      rw [if_neg hEnvF] at h
      have hR : resultRec hi ts.base raw = none := by
        simp only [resultRec, hP]
        rw [if_pos hle]
      rw [hR] at h
      dsimp only at h
      injection h with h
      subst h
      subst hs1
      have hne : ts.base.all_raw_data ≠ [] := by
        intro hnil
        rw [hnil] at hlast
        exact Option.noConfusion hlast
      have htne : ts.traces ≠ [] := by
        intro hnil
        have h0l : ts.base.all_raw_data.length = 0 := by
          rw [← hI.1, hnil]
          rfl
        exact hne (List.length_eq_zero.mp h0l)
      rcases htr0x : ts.traces.getLast? with _ | tr0
      · have hsome := List.getLast?_isSome.mpr htne
        rw [htr0x] at hsome
        exact Bool.noConfusion hsome
      · have hcur2 : ts.base.all_raw_data.get? (ts.base.all_raw_data.length - 1)
            = some cur := by
          rw [← getLast?_eq_get?_pred]
          exact hlast
        have htr2 : ts.traces.get? (ts.base.all_raw_data.length - 1) = some tr0 := by
          rw [← hI.1, ← getLast?_eq_get?_pred]
          exact htr0x
        obtain ⟨olda, oldb⟩ := hI.2 (ts.base.all_raw_data.length - 1) cur tr0 hcur2 htr2
        have hnew := interval_update_slots cur cur' lid ip d tr0 happ olda oldb
        have hTI := traceInv_update_last ts hI cur tr0 hlast htr0x cur' tr0
          (some d.interval) hnew
        rw [setLastEnv_getLast? _ _ htr0x] at hTI
        exact hTI
    · have hEnvF : ¬ isEnvLine hi raw = true := by
        simp only [isEnvLine, hP]
        simp [hle]
      rw [if_neg hEnvF] at h
      have hne : ts.base.all_raw_data ≠ [] := by
        intro hnil
        rw [hnil] at hlast
        exact Option.noConfusion hlast
      have htne : ts.traces ≠ [] := by
        intro hnil
        have h0l : ts.base.all_raw_data.length = 0 := by
          rw [← hI.1, hnil]
          rfl
        exact hne (List.length_eq_zero.mp h0l)
      rcases htr0x : ts.traces.getLast? with _ | tr0
      · have hsome := List.getLast?_isSome.mpr htne
        rw [htr0x] at hsome
        exact Bool.noConfusion hsome
      · have hcur2 : ts.base.all_raw_data.get? (ts.base.all_raw_data.length - 1)
            = some cur := by
          rw [← getLast?_eq_get?_pred]
          exact hlast
        have htr2 : ts.traces.get? (ts.base.all_raw_data.length - 1) = some tr0 := by
          rw [← hI.1, ← getLast?_eq_get?_pred]
          exact htr0x
        obtain ⟨olda, oldb⟩ := hI.2 (ts.base.all_raw_data.length - 1) cur tr0 hcur2 htr2
        rcases hds0 : aget cur.dates i with _ | ds0
        · have hR : resultRec hi ts.base raw = none := by
            simp only [resultRec, hP]
            rw [if_neg hle, h0]
            dsimp only
            rw [hf]
            dsimp only
            rw [hlast]
            dsimp only
            rw [hintv]
            dsimp only
            rw [hds0]
          rw [hR] at h
          dsimp only at h
          injection h with h
          subst h
          rcases hrest with ⟨hnot, hs1⟩ |
              ⟨peak_res, pm, pbin, pl, hpk, hplist, hpo, hpb, hpl, hpe, hs1⟩
          · subst hs1
            have hTI := traceInv_update_last ts hI cur tr0 hlast htr0x
              { cur with outputs := aset cur.outputs i (aset obin lid.toNat (setLast l (some res))) }
              tr0 ts.base.interval
              ⟨olda, result_update_slots_nodate cur i lid.toNat obin l res tr0 hds0 oldb⟩
            rw [setLastEnv_getLast? _ _ htr0x] at hTI
            exact hTI
          · subst hs1
            have hTI := traceInv_update_last ts hI cur tr0 hlast htr0x
              { cur with
                  outputs :=
                    (aset cur.outputs i (aset obin lid.toNat (setLast l (some res)))),
                  peak_outputs :=
                    (some (aset pm i (aset pbin lid.toNat (setLast pl (some peak_res))))) }
              tr0 ts.base.interval
              ⟨olda, result_update_slots_nodate cur i lid.toNat obin l res tr0 hds0 oldb⟩
            rw [setLastEnv_getLast? _ _ htr0x] at hTI
            exact hTI
        · have hR : resultRec hi ts.base raw
              = some ⟨i, ds0.length - 1, lid.toNat, res⟩ := by
            simp only [resultRec, hP]
            rw [if_neg hle, h0]
            dsimp only
            rw [hf]
            dsimp only
            rw [hlast]
            dsimp only
            rw [hintv]
            dsimp only
            rw [hds0]
          rw [hR] at h
          dsimp only at h
          injection h with h
          subst h
          have hlne : l ≠ [] := by
            intro hnil
            rw [hnil] at hemp
            exact hemp rfl
          have hpos : 0 < l.length := List.length_pos.mpr hlne
          have hnew := result_update_slots cur i lid.toNat obin l res ds0 tr0
            hds0 hob hser hpos olda oldb
          rcases hrest with ⟨hnot, hs1⟩ |
              ⟨peak_res, pm, pbin, pl, hpk, hplist, hpo, hpb, hpl, hpe, hs1⟩
          · subst hs1
            rw [htr0x, Option.getD_some]
            exact traceInv_update_last ts hI cur tr0 hlast htr0x
              { cur with outputs := aset cur.outputs i (aset obin lid.toNat (setLast l (some res))) }
              (tr0 ++ [(⟨i, ds0.length - 1, lid.toNat, res⟩ : TraceRec)])
              ts.base.interval hnew
          · subst hs1
            rw [htr0x, Option.getD_some]
            exact traceInv_update_last ts hI cur tr0 hlast htr0x
              { cur with
                  outputs :=
                    (aset cur.outputs i (aset obin lid.toNat (setLast l (some res)))),
                  peak_outputs :=
                    (some (aset pm i (aset pbin lid.toNat (setLast pl (some peak_res))))) }
              (tr0 ++ [(⟨i, ds0.length - 1, lid.toNat, res⟩ : TraceRec)])
              ts.base.interval hnew
  · rw [hstep] at h
    exact TStepOut.noConfusion h

theorem read_bodyT_traceInv (hi : Int) (hdr : HeaderT) (ip : Bool) :
    ∀ (lines : List String) (ts : TBodyState) (envs : List RawEsoData)
      (trs : List (List TraceRec)),
      TraceInv ts →
      read_bodyT lines hi hdr ip ts = .ok (envs, trs) →
      trs.length = envs.length ∧
      ∀ eIdx env tr, envs.get? eIdx = some env → trs.get? eIdx = some tr →
        (∀ r ∈ tr, ∃ ds, aget env.dates r.interval = some ds ∧ r.step < ds.length) ∧
        ∀ i ds obin, aget env.dates i = some ds → aget env.outputs i = some obin →
          ∀ idn l, aget obin idn = some l →
            l.length = ds.length ∧
            ∀ k, k < ds.length → l.get? k = some (specLast tr i idn k) := by
  intro lines
  induction lines with
  | nil =>
    intro ts envs trs hI h
    simp only [read_bodyT] at h
    exact Except.noConfusion h
  | cons raw rest ih =>
    intro ts envs trs hI h
    simp only [read_bodyT] at h
    rcases hstep : bodyLineStepT hi hdr ip ts raw with ts1 | ts1 | e
    · rw [hstep] at h
      dsimp only at h
      injection h with h
      have hts1 : ts1 = ts := bodyLineStepT_finished_eq hi hdr ip ts ts1 raw hstep
      subst hts1
      injection h with h1 h2
      subst h1
      subst h2
      exact hI
    · rw [hstep] at h
      dsimp only at h
      exact ih ts1 envs trs (bodyLineStepT_traceInv hi hdr ip ts ts1 raw hI hstep) h
    · rw [hstep] at h
      exact Except.noConfusion h

/-- C2: for every successfully parsed body, the traced rerun of the parser
logs one record per stored result line (carrying the interval, the step
index `len(dates[interval]) - 1` at the moment of storage, the id and the
parsed value), and every final slot `outputs[i][v][k]` holds exactly the
value of the last record logged for `(i, v, k)` — the missing sentinel
exactly when no result record was stored at step `k`.  A record stored
between the `m`-th and `(m+1)`-st markers of its interval lands at step
`m - 1` (the slot opened by the marker preceding it), not at step `m`:
the spec's S5 instance `outputs[TS][7] = [missing, 21.5]` is refuted by
`c2_counterexample_s5`, the actual value being `[21.5, missing]`. -/
theorem c2_sparse_series_last_record (lines : List String) (hi : Int)
    (hdr : HeaderT) (ip : Bool) (envs : List RawEsoData)
    (hok : read_body lines hi hdr ip bodyInit = .ok envs) :
    ∃ trs, read_bodyT lines hi hdr ip tBodyInit = .ok (envs, trs) ∧
      trs.length = envs.length ∧
      ∀ eIdx env tr, envs.get? eIdx = some env → trs.get? eIdx = some tr →
        (∀ r ∈ tr, ∃ ds, aget env.dates r.interval = some ds ∧ r.step < ds.length) ∧
        ∀ i ds obin, aget env.dates i = some ds → aget env.outputs i = some obin →
          ∀ idn l, aget obin idn = some l →
            l.length = ds.length ∧
            ∀ k, k < ds.length → l.get? k = some (specLast tr i idn k) := by
  obtain ⟨trs, hT⟩ := read_bodyT_ok_of lines hi hdr ip envs hok
  have hI0 : TraceInv tBodyInit := by
    constructor
    · rfl
    · intro eIdx env tr henv htr
      exact absurd henv (fun hx => Option.noConfusion hx)
  exact ⟨trs, hT, read_bodyT_traceInv hi hdr ip lines tBodyInit envs trs hI0 hT⟩

/-- C2 counterexample: scenario S5 (ids 7 and 8 in TS, two TS markers, one
record `7,21.5` between them).  The record lands in the slot opened by the
first marker, so the parser yields `outputs[TS][7] = [21.5, missing]`, not
`[missing, 21.5]` as the claim states; `outputs[TS][8]` is all-missing as
claimed. -/
theorem c2_counterexample_s5 :
    firstEnvOutputs (read_body s5body 6 hdrTS true bodyInit) TS 7
        = some [some ⟨215, -1⟩, none] ∧
    ¬ firstEnvOutputs (read_body s5body 6 hdrTS true bodyInit) TS 7
        = some [none, some ⟨215, -1⟩] ∧
    firstEnvOutputs (read_body s5body 6 hdrTS true bodyInit) TS 8
        = some [none, none] := by
  decide

/-- C2 witness: the S5 run instantiates the slot characterization. -/
theorem c2_sparse_series_last_record_witness :
    read_body s5body 6 hdrTS true bodyInit = .ok s5envList ∧
    (∃ trs, read_bodyT s5body 6 hdrTS true tBodyInit = .ok (s5envList, trs) ∧
      trs.length = s5envList.length ∧
      ∀ eIdx env tr, s5envList.get? eIdx = some env → trs.get? eIdx = some tr →
        (∀ r ∈ tr, ∃ ds, aget env.dates r.interval = some ds ∧ r.step < ds.length) ∧
        ∀ i ds obin, aget env.dates i = some ds → aget env.outputs i = some obin →
          ∀ idn l, aget obin idn = some l →
            l.length = ds.length ∧
            ∀ k, k < ds.length → l.get? k = some (specLast tr i idn k)) :=
  ⟨by decide, c2_sparse_series_last_record s5body 6 hdrTS true s5envList (by decide)⟩

end EsoReader
